import Mathlib

/-!
Shallow embedding of the Raft peer state machine from src/src/raft.rs.

The single source file of the repository is raft.rs.  Its collaborators
(RaftLog, Progress/ProgressSet, ReadOnly, Storage, the protobuf message
schema) live in modules of the same repository that are not part of the
source tree given here; those are modelled from the contract the
specification states for them (sections 3, 4.4, 4.5, 4.6 of spec.md) and
every such definition carries a doc comment starting with
`Modelled from the spec:`.  Everything else is a direct translation of
raft.rs.

Conventions of the embedding:
- u64 / usize fields become `Nat` (no arithmetic in raft.rs can overflow a
  u64 in the scenarios modelled; indices and terms only ever grow by small
  increments).
- `panic!`, `unwrap` on `None`, `expect` and `assert!` abort the process;
  they are modelled by an `Option` result where `none` means the process
  aborted.  `debug_assert!` compiles to a no-op in release builds and is
  modelled as a no-op (marked by a comment at each site).
- `Result<T> = Ok | Err(Error)` return values become an `Option RaftError`
  paired with the post state, since a Rust `Err` return still keeps the
  mutated receiver.
- byte strings (campaign contexts, entry payloads) become `List Nat`.
- the election-timeout randomizer is modelled by a list of pre-drawn
  numbers in the state (spec section 9: the randomizer must be replaceable
  by a deterministic source).
-/

set_option maxRecDepth 10000

namespace RaftRs

/-- Role of the node, from raft.rs `StateRole`. -/
inductive StateRole
  | Follower
  | Candidate
  | Leader
  | PreCandidate
deriving DecidableEq, Repr

/-- Message types of the wire schema (spec section 6; eraftpb `MessageType`).
The first variant is the protobuf default. -/
inductive MessageType
  | MsgHup
  | MsgBeat
  | MsgPropose
  | MsgAppend
  | MsgAppendResponse
  | MsgRequestVote
  | MsgRequestVoteResponse
  | MsgSnapshot
  | MsgHeartbeat
  | MsgHeartbeatResponse
  | MsgUnreachable
  | MsgSnapStatus
  | MsgCheckQuorum
  | MsgTransferLeader
  | MsgTimeoutNow
  | MsgReadIndex
  | MsgReadIndexResp
  | MsgRequestPreVote
  | MsgRequestPreVoteResponse
deriving DecidableEq, Repr

/-- Entry types (spec section 6; eraftpb `EntryType`). -/
inductive EntryType
  | EntryNormal
  | EntryConfChange
deriving DecidableEq, Repr

/-- ConfChange types (spec section 6; eraftpb `ConfChangeType`). -/
inductive ConfChangeType
  | AddNode
  | RemoveNode
  | AddLearnerNode
  | BeginMembershipChange
  | FinalizeMembershipChange
deriving DecidableEq, Repr

/-- Progress replication states (spec glossary; `ProgressState`). -/
inductive ProgressState
  | Probe
  | Replicate
  | Snapshot
deriving DecidableEq, Repr

/-- Read-only mode (spec section 4.5; `ReadOnlyOption`). -/
inductive ReadOnlyOption
  | Safe
  | LeaseBased
deriving DecidableEq, Repr

/-- Election outcome of a tally (spec section 4.3; `CandidacyStatus`). -/
inductive CandidacyStatus
  | Elected
  | Ineligible
  | Eligible
deriving DecidableEq, Repr

/-- Errors surfaced by the core (spec section 6; `errors::Error`). -/
inductive RaftError
  | ProposalDropped
  | ViolatesContract
  | NoPendingMembershipChange
  | InvalidState
deriving DecidableEq, Repr

/-- Modelled from the spec: a configuration of voters and learners
(spec section 3, ProgressSet). -/
structure Configuration where
  voters : List Nat
  learners : List Nat
deriving DecidableEq, Repr

/-- Membership-change record carried by a ConfChange entry
(spec section 6: a BeginMembershipChange carries a configuration and its
own start index; FinalizeMembershipChange carries neither). -/
structure ConfChange where
  change_type : ConfChangeType
  configuration : Option Configuration
  start_index : Nat
deriving DecidableEq, Repr

def ConfChange.has_configuration (c : ConfChange) : Bool :=
  c.configuration.isSome

def ConfChange.get_configuration (c : ConfChange) : Configuration :=
  c.configuration.getD ⟨[], []⟩

/-- Modelled from the spec: the protobuf serialization of a ConfChange used
for ConfChange entry payloads.  Only injectivity and executability matter
to the embedding; the exact byte layout of prost is irrelevant to every
claim. -/
def encodeConfChange (c : ConfChange) : List Nat :=
  let ty : Nat :=
    match c.change_type with
    | .AddNode => 0
    | .RemoveNode => 1
    | .AddLearnerNode => 2
    | .BeginMembershipChange => 3
    | .FinalizeMembershipChange => 4
  match c.configuration with
  | none => [ty, c.start_index, 0]
  | some cfg => [ty, c.start_index, 1, cfg.voters.length] ++ cfg.voters ++ cfg.learners

/-- A log entry (spec section 3): index, term, type and an opaque payload. -/
structure Entry where
  entry_type : EntryType
  term : Nat
  index : Nat
  data : List Nat
deriving DecidableEq, Repr

/-- The protobuf default entry: type Normal, everything zero. -/
def Entry.default : Entry := ⟨.EntryNormal, 0, 0, []⟩

/-- Snapshot metadata (spec sections 4.8, 6). -/
structure SnapshotMetadata where
  index : Nat
  term : Nat
  conf_state : Configuration
  pending_membership_change : Configuration
  pending_membership_change_index : Nat
deriving DecidableEq, Repr

/-- A snapshot message payload. -/
structure Snapshot where
  metadata : SnapshotMetadata
deriving DecidableEq, Repr

def Snapshot.default : Snapshot := ⟨⟨0, 0, ⟨[], []⟩, ⟨[], []⟩, 0⟩⟩

/-- The wire message (spec section 6).  The Rust field `from` is a Lean
keyword and is rendered `from_`. -/
structure Message where
  msg_type : MessageType
  to_ : Nat
  from_ : Nat
  term : Nat
  log_term : Nat
  index : Nat
  commit : Nat
  entries : List Entry
  snapshot : Snapshot
  reject : Bool
  reject_hint : Nat
  context : List Nat
deriving DecidableEq, Repr

/-- The protobuf default message: type MsgHup (variant 0), all fields zero. -/
def Message.default : Message :=
  ⟨.MsgHup, 0, 0, 0, 0, 0, 0, [], Snapshot.default, false, 0, []⟩

/-- A committed read-index result (`ReadState` in read_only.rs). -/
structure ReadState where
  index : Nat
  request_ctx : List Nat
deriving DecidableEq, Repr

/-- Campaign context token (raft.rs CAMPAIGN_PRE_ELECTION), bytes modelled
as a distinguished list. -/
def CAMPAIGN_PRE_ELECTION : List Nat := [1]

/-- Campaign context token (raft.rs CAMPAIGN_ELECTION). -/
def CAMPAIGN_ELECTION : List Nat := [2]

/-- Campaign context token (raft.rs CAMPAIGN_TRANSFER). -/
def CAMPAIGN_TRANSFER : List Nat := [3]

/-!  The RaftLog model. -/

/-- Modelled from the spec: the RaftLog contract of spec section 3.  The
log is kept as the dense list of entries after a snapshot point `offset`
(`first_index = offset + 1`, entry k of the list has index
`offset + 1 + k`), the term at the snapshot point, and the commit/apply
cursors. -/
structure RaftLog where
  offset : Nat
  offset_term : Nat
  entries : List Entry
  committed : Nat
  applied : Nat
deriving DecidableEq, Repr

namespace RaftLog

/-- Modelled from the spec: `last_index`. -/
def last_index (l : RaftLog) : Nat := l.offset + l.entries.length

/-- Modelled from the spec: `first_index`. -/
def first_index (l : RaftLog) : Nat := l.offset + 1

/-- Modelled from the spec: term of the last entry (the snapshot term when
the entry list is empty). -/
def last_term (l : RaftLog) : Nat :=
  match l.entries.getLast? with
  | some e => e.term
  | none => l.offset_term

/-- Modelled from the spec: `term(i)`; fails for compacted or
out-of-range indices. -/
def term (l : RaftLog) (i : Nat) : Option Nat :=
  if i < l.offset then none
  else if i = l.offset then some l.offset_term
  else (l.entries.get? (i - l.offset - 1)).map (fun e => e.term)

/-- Modelled from the spec: `match_term(i, t)` holds when `term(i)`
succeeds and equals `t`. -/
def match_term (l : RaftLog) (i t : Nat) : Bool :=
  match l.term i with
  | some t2 => t2 = t
  | none => false

/-- Modelled from the spec: `is_up_to_date(idx, term)` per Raft 5.4.1:
the candidate's last term is larger, or equal with at least as large a
last index. -/
def is_up_to_date (l : RaftLog) (idx t : Nat) : Bool :=
  t > l.last_term ∨ (t = l.last_term ∧ idx ≥ l.last_index)

/-- Modelled from the spec: `append(entries)` appends entries whose
indices the caller has already set to continue the log. -/
def append (l : RaftLog) (es : List Entry) : RaftLog :=
  { l with entries := l.entries ++ es }

/-- Modelled from the spec: `commit_to(index)`; advancing past the last
index is a fatal error (`none`). -/
def commit_to (l : RaftLog) (i : Nat) : Option RaftLog :=
  if i ≤ l.committed then some l
  else if i ≤ l.last_index then some { l with committed := i } else none

/-- Modelled from the spec: `maybe_commit(index, term)` advances commit
only if the entry at `index` has the given term. -/
def maybe_commit (l : RaftLog) (i t : Nat) : RaftLog × Bool :=
  if l.committed < i ∧ l.term i = some t then
    ({ l with committed := i }, true)
  else (l, false)

/-- Modelled from the spec: standard Raft append; skip entries already in
the log with matching term, truncate from the first conflict and append
the rest. -/
def truncate_and_append (l : RaftLog) : List Entry → RaftLog
  | [] => l
  | e :: rest =>
    if l.match_term e.index e.term then truncate_and_append l rest
    else { l with entries := l.entries.take (e.index - l.offset - 1) ++ (e :: rest) }

/-- Modelled from the spec: `maybe_append(prev_idx, prev_term, committed,
entries)`; on a match of the previous entry, reconcile and commit up to
`min committed last_new_index`, returning the last new index. -/
def maybe_append (l : RaftLog) (idx log_term committed : Nat) (ents : List Entry) :
    Option (Nat × RaftLog) :=
  if l.match_term idx log_term then
    let new_last := idx + ents.length
    let l2 := truncate_and_append l ents
    some (new_last, { l2 with committed := max l2.committed (min committed new_last) })
  else none

/-- Modelled from the spec: `slice(lo, hi)`; fails below the first index
or past the last index (message-size limiting is not modelled, no claim
depends on it). -/
def slice (l : RaftLog) (lo hi : Nat) : Option (List Entry) :=
  if lo = hi then some []
  else if hi < lo ∨ lo ≤ l.offset ∨ l.last_index + 1 < hi then none
  else some (l.entries.filter (fun e => lo ≤ e.index ∧ e.index < hi))

/-- Modelled from the spec: `entries(lo, max_bytes)` = slice up to the end
of the log. -/
def entries_from (l : RaftLog) (lo : Nat) : Option (List Entry) :=
  l.slice lo (l.last_index + 1)

/-- Modelled from the spec: `restore(snapshot)` replaces the log with the
snapshot point and commits to it. -/
def restore (l : RaftLog) (snap : Snapshot) : RaftLog :=
  { offset := snap.metadata.index,
    offset_term := snap.metadata.term,
    entries := [],
    committed := snap.metadata.index,
    applied := l.applied }

end RaftLog

/-!  The Progress / ProgressSet model. -/

/-- Modelled from the spec: per-peer replication progress (spec section 3,
ProgressSet): matched and next indices, probe/replicate/snapshot state,
pause flag, pending snapshot index, recent-activity flag and the inflight
window (a queue of last entry indices, bounded by `ins_cap`). -/
structure Progress where
  matched : Nat
  next_idx : Nat
  state : ProgressState
  paused : Bool
  pending_snapshot : Nat
  recent_active : Bool
  ins : List Nat
  ins_cap : Nat
deriving DecidableEq, Repr

namespace Progress

/-- Modelled from the spec: a fresh progress at a given next index. -/
def new (next cap : Nat) : Progress :=
  { matched := 0, next_idx := next, state := .Probe, paused := false,
    pending_snapshot := 0, recent_active := false, ins := [], ins_cap := cap }

/-- Modelled from the spec: progress reset on a local role reset
(matched := 0, next_idx := given). -/
def reset (p : Progress) (next : Nat) : Progress :=
  Progress.new next p.ins_cap

/-- Modelled from the spec: a paused progress is skipped by the
replication driver; Probe pauses via the flag, Replicate when the
inflight window is full, Snapshot always. -/
def is_paused (p : Progress) : Bool :=
  match p.state with
  | .Probe => p.paused
  | .Replicate => p.ins.length ≥ p.ins_cap
  | .Snapshot => true

def pause (p : Progress) : Progress := { p with paused := true }

def resume (p : Progress) : Progress := { p with paused := false }

/-- Modelled from the spec: switch to Probe, resuming from the matched
index (or past a pending snapshot). -/
def become_probe (p : Progress) : Progress :=
  if p.state = .Snapshot then
    { p with
      state := .Probe, next_idx := max (p.matched + 1) (p.pending_snapshot + 1),
      pending_snapshot := 0, paused := false, ins := [] }
  else
    { p with state := .Probe, next_idx := p.matched + 1, paused := false, ins := [] }

/-- Modelled from the spec: switch to pipelined replication. -/
def become_replicate (p : Progress) : Progress :=
  { p with state := .Replicate, next_idx := p.matched + 1, paused := false, ins := [] }

/-- Modelled from the spec: switch to Snapshot with the pending snapshot
index. -/
def become_snapshot (p : Progress) (idx : Nat) : Progress :=
  { p with state := .Snapshot, pending_snapshot := idx, paused := false, ins := [] }

/-- Modelled from the spec: clear a failed pending snapshot. -/
def snapshot_failure (p : Progress) : Progress := { p with pending_snapshot := 0 }

/-- Modelled from the spec: a pending snapshot is superseded once matched
has caught up to it. -/
def maybe_snapshot_abort (p : Progress) : Bool :=
  p.state = .Snapshot ∧ p.pending_snapshot ≤ p.matched

/-- Modelled from the spec: `maybe_update(n)` raises matched (and next)
when the acknowledgement advances it; an advance also resumes the
progress. -/
def maybe_update (p : Progress) (n : Nat) : Progress × Bool :=
  if p.matched < n then
    ({ p with matched := n, next_idx := max p.next_idx (n + 1), paused := false }, true)
  else (p, false)

/-- Modelled from the spec: `maybe_decr_to(rejected, hint)` backs up the
next index after a rejected append. -/
def maybe_decr_to (p : Progress) (rejected hint : Nat) : Progress × Bool :=
  if p.state = .Replicate then
    if rejected ≤ p.matched then (p, false)
    else ({ p with next_idx := p.matched + 1 }, true)
  else
    if p.next_idx = 0 ∨ p.next_idx - 1 ≠ rejected then (p, false)
    else ({ p with next_idx := max (min rejected (hint + 1)) 1, paused := false }, true)

/-- Modelled from the spec: bookkeeping after sending entries ending at
`last`: a probing peer pauses, a replicating peer optimistically advances
next and books an inflight slot. -/
def update_state (p : Progress) (last : Nat) : Progress :=
  match p.state with
  | .Replicate => { p with next_idx := last + 1, ins := p.ins ++ [last] }
  | .Probe => p.pause
  | .Snapshot => p

/-- Modelled from the spec: release inflight slots for batches up to
`idx`. -/
def free_to (p : Progress) (idx : Nat) : Progress :=
  { p with ins := p.ins.filter (fun i => idx < i) }

/-- Modelled from the spec: free the head slot of a full inflight
window. -/
def free_first_one (p : Progress) : Progress :=
  { p with ins := p.ins.drop 1 }

end Progress

/-- Modelled from the spec: the ProgressSet (spec section 3): the per-peer
progress map (an association list in iteration order), the primary
configuration and, while in joint consensus, the secondary one. -/
structure ProgressSet where
  progress : List (Nat × Progress)
  configuration : Configuration
  next_configuration : Option Configuration
deriving DecidableEq, Repr

namespace ProgressSet

def get (ps : ProgressSet) (id : Nat) : Option Progress :=
  ps.progress.lookup id

def update (ps : ProgressSet) (id : Nat) (pr : Progress) : ProgressSet :=
  { ps with progress := ps.progress.map (fun p => if p.1 = id then (id, pr) else p) }

/-- Modelled from the spec: voter ids of every active configuration. -/
def voter_ids (ps : ProgressSet) : List Nat :=
  ps.configuration.voters ++
    (match ps.next_configuration with
     | some c => c.voters.filter (fun v => ¬ v ∈ ps.configuration.voters)
     | none => [])

/-- Modelled from the spec: learner ids of every active configuration. -/
def learner_ids (ps : ProgressSet) : List Nat :=
  ps.configuration.learners ++
    (match ps.next_configuration with
     | some c => c.learners.filter (fun v => ¬ v ∈ ps.configuration.learners)
     | none => [])

/-- Modelled from the spec: a strict majority of the given voter list is
contained in `s`. -/
def majority (voters s : List Nat) : Bool :=
  voters.length < 2 * (voters.filter (fun v => v ∈ s)).length

/-- Modelled from the spec: quorum in every active configuration (both
configurations independently while in joint consensus). -/
def has_quorum (ps : ProgressSet) (s : List Nat) : Bool :=
  majority ps.configuration.voters s &&
    (match ps.next_configuration with
     | some c => majority c.voters s
     | none => true)

/-- Modelled from the spec: tally outcome (spec section 4.3): Elected on a
quorum of grants in every active configuration, Ineligible on a quorum of
rejections, Eligible otherwise. -/
def candidacy_status (ps : ProgressSet) (votes : List (Nat × Bool)) : CandidacyStatus :=
  let grants := (votes.filter (fun v => v.2)).map (fun v => v.1)
  let rejects := (votes.filter (fun v => ¬ v.2)).map (fun v => v.1)
  if ps.has_quorum grants then .Elected
  else if ps.has_quorum rejects then .Ineligible
  else .Eligible

def matched_of (ps : ProgressSet) (id : Nat) : Nat :=
  match ps.get id with
  | some pr => pr.matched
  | none => 0

/-- Insert keeping descending order; used to find the quorum-replicated
index. -/
def insertDesc (n : Nat) : List Nat → List Nat
  | [] => [n]
  | m :: ms => if m ≤ n then n :: m :: ms else m :: insertDesc n ms

def sortDesc (l : List Nat) : List Nat := l.foldr insertDesc []

/-- Modelled from the spec: the highest index replicated on a quorum of
one configuration: the (majority)th largest matched index. -/
def config_committed (ps : ProgressSet) (voters : List Nat) : Nat :=
  ((sortDesc (voters.map ps.matched_of)).get? (voters.length / 2)).getD 0

/-- Modelled from the spec: the highest index replicated on a quorum in
every active configuration. -/
def maximal_committed_index (ps : ProgressSet) : Nat :=
  let primary := ps.config_committed ps.configuration.voters
  match ps.next_configuration with
  | some c => min primary (ps.config_committed c.voters)
  | none => primary

/-- Modelled from the spec: check-quorum bookkeeping: the recently-active
voters (the leader counts as active) must form a quorum; the check clears
every recent_active flag. -/
def quorum_recently_active (ps : ProgressSet) (self_id : Nat) : Bool × ProgressSet :=
  let active := (ps.progress.filter (fun p => p.1 = self_id ∨ p.2.recent_active)).map (fun p => p.1)
  let cleared := { ps with progress := ps.progress.map (fun p => (p.1, { p.2 with recent_active := false })) }
  (ps.has_quorum active, cleared)

/-- Modelled from the spec: rebuild the progress set from a snapshot's
configuration state. -/
def restore_snapmeta (meta : SnapshotMetadata) (next cap : Nat) : ProgressSet :=
  { progress :=
      meta.conf_state.voters.map (fun id => (id, Progress.new next cap)) ++
        meta.conf_state.learners.map (fun id => (id, Progress.new next cap)),
    configuration := meta.conf_state,
    next_configuration :=
      if 0 < meta.pending_membership_change_index then
        some meta.pending_membership_change
      else none }

/-- Modelled from the spec: install the target configuration as the
secondary one and create progress for every new peer. -/
def begin_membership_change (ps : ProgressSet) (cfg : Configuration) (pr : Progress) :
    ProgressSet :=
  let known := ps.progress.map (fun p => p.1)
  let fresh := (cfg.voters ++ cfg.learners).filter (fun id => ¬ id ∈ known)
  { ps with
    next_configuration := some cfg,
    progress := ps.progress ++ fresh.map (fun id => (id, pr)) }

/-- Modelled from the spec: collapse the progress set to the new
configuration only. -/
def finalize_membership_change (ps : ProgressSet) : Option ProgressSet :=
  match ps.next_configuration with
  | none => none
  | some cfg =>
    some { progress := ps.progress.filter (fun p => p.1 ∈ cfg.voters ∨ p.1 ∈ cfg.learners),
           configuration := cfg,
           next_configuration := none }

end ProgressSet

/-!  The ReadOnly model. -/

/-- Modelled from the spec: one outstanding read-index request with its
recorded commit index and ack set (spec section 4.5). -/
structure ReadIndexStatus where
  req : Message
  index : Nat
  acks : List Nat
deriving DecidableEq, Repr

/-- Modelled from the spec: the queue of outstanding read-index requests,
keyed by request context, in arrival order. -/
structure ReadOnly where
  option : ReadOnlyOption
  pending_read_index : List (List Nat × ReadIndexStatus)
deriving DecidableEq, Repr

namespace ReadOnly

def new (opt : ReadOnlyOption) : ReadOnly :=
  { option := opt, pending_read_index := [] }

/-- Modelled from the spec: record a read request at the current commit
index, keyed by its context; a duplicate context is ignored. -/
def add_request (ro : ReadOnly) (idx : Nat) (m : Message) : ReadOnly :=
  let ctx := (m.entries.head?.getD Entry.default).data
  if (ro.pending_read_index.lookup ctx).isSome then ro
  else { ro with pending_read_index := ro.pending_read_index ++ [(ctx, ⟨m, idx, []⟩)] }

/-- Modelled from the spec: record a heartbeat-response ack for the
request context and return the resulting ack set. -/
def recv_ack (ro : ReadOnly) (m : Message) : List Nat × ReadOnly :=
  match ro.pending_read_index.lookup m.context with
  | none => ([], ro)
  | some st =>
    let acks := if m.from_ ∈ st.acks then st.acks else st.acks ++ [m.from_]
    let pend := ro.pending_read_index.map
      (fun p => if p.1 = m.context then (p.1, { st with acks := acks }) else p)
    (acks, { ro with pending_read_index := pend })

/-- Modelled from the spec: advancing one request releases it and all
earlier ones in queue order. -/
def advance (ro : ReadOnly) (m : Message) : List ReadIndexStatus × ReadOnly :=
  if (ro.pending_read_index.lookup m.context).isSome then
    let i := (ro.pending_read_index.findIdx (fun p => p.1 = m.context)) + 1
    ((ro.pending_read_index.take i).map (fun p => p.2),
     { ro with pending_read_index := ro.pending_read_index.drop i })
  else ([], ro)

/-- Modelled from the spec: the context of the most recent pending
request, attached to heartbeat broadcasts. -/
def last_pending_request_ctx (ro : ReadOnly) : Option (List Nat) :=
  (ro.pending_read_index.getLast?).map (fun p => p.1)

end ReadOnly

/-!  The Raft peer state (raft.rs `Raft<T>`). -/

/-- The Raft peer state, translated field by field from raft.rs.  The
`prs` field is present directly instead of behind the Rust
`Option<ProgressSet>` take/set borrowing device.  `store_snapshot` is
modelled from the spec: the Storage collaborator's `snapshot()` result
(`none` for SnapshotTemporarilyUnavailable).  `rand` is modelled from the
spec: the pre-drawn randomizer stream of section 9. -/
structure Raft where
  id : Nat
  term : Nat
  vote : Nat
  read_states : List ReadState
  raft_log : RaftLog
  max_inflight : Nat
  prs : ProgressSet
  state : StateRole
  is_learner : Bool
  votes : List (Nat × Bool)
  msgs : List Message
  leader_id : Nat
  lead_transferee : Option Nat
  pending_conf_index : Nat
  pending_membership_change : Option ConfChange
  read_only : ReadOnly
  election_elapsed : Nat
  heartbeat_elapsed : Nat
  check_quorum : Bool
  pre_vote : Bool
  skip_bcast_commit : Bool
  batch_append : Bool
  heartbeat_timeout : Nat
  election_timeout : Nat
  randomized_election_timeout : Nat
  min_election_timeout : Nat
  max_election_timeout : Nat
  store_snapshot : Option Snapshot
  rand : List Nat

namespace Raft

/-- raft.rs `new_message`. -/
def new_message (to_ : Nat) (t : MessageType) (fr : Option Nat) : Message :=
  { Message.default with
    to_ := to_,
    from_ := fr.getD Message.default.from_,
    msg_type := t }

/-- raft.rs `vote_resp_msg_type`; panics on a non-vote message. -/
def vote_resp_msg_type : MessageType → Option MessageType
  | .MsgRequestVote => some .MsgRequestVoteResponse
  | .MsgRequestPreVote => some .MsgRequestPreVoteResponse
  | _ => none

/-- raft.rs `send`: stamp the sender, enforce the term-stamping rules
(panicking — `none` — on a violation), stamp the local term on every
non-local non-vote message, and push to the outbound buffer. -/
def send (s : Raft) (m : Message) : Option Raft :=
  let m := { m with from_ := s.id }
  if m.msg_type = .MsgRequestVote ∨ m.msg_type = .MsgRequestPreVote ∨
      m.msg_type = .MsgRequestVoteResponse ∨ m.msg_type = .MsgRequestPreVoteResponse then
    if m.term = 0 then none
    else some { s with msgs := s.msgs ++ [m] }
  else
    if m.term ≠ 0 then none
    else
      let m :=
        if m.msg_type ≠ .MsgPropose ∧ m.msg_type ≠ .MsgReadIndex then
          { m with term := s.term }
        else m
      some { s with msgs := s.msgs ++ [m] }

/-- raft.rs `prepare_send_snapshot`: skip inactive peers, fall back on a
temporarily unavailable snapshot, abort on an empty one, otherwise attach
the snapshot and move the peer's progress to Snapshot. -/
def prepare_send_snapshot (s : Raft) (m : Message) (pr : Progress) :
    Option (Bool × Message × Progress) :=
  if ¬ pr.recent_active then some (false, m, pr)
  else
    let m := { m with msg_type := .MsgSnapshot }
    match s.store_snapshot with
    | none => some (false, m, pr)
    | some snap =>
      if snap.metadata.index = 0 then none
      else some (true, { m with snapshot := snap }, pr.become_snapshot snap.metadata.index)

/-- raft.rs `prepare_send_entries`: build the MsgAppend and advance the
peer's progress book-keeping past the last entry sent. -/
def prepare_send_entries (s : Raft) (m : Message) (pr : Progress) (t : Nat)
    (ents : List Entry) : Message × Progress :=
  let m := { m with
             msg_type := .MsgAppend,
             index := pr.next_idx - 1,
             log_term := t,
             entries := ents,
             commit := s.raft_log.committed }
  match ents.getLast? with
  | some last => (m, pr.update_state last.index)
  | none => (m, pr)

/-- util.rs `is_continuous_ents`: the new entries extend the message's
entries without a gap. -/
def is_continuous_ents (msg : Message) (ents : List Entry) : Bool :=
  match msg.entries.getLast?, ents.head? with
  | some l, some f => l.index + 1 = f.index
  | _, _ => true

/-- Walk the outbound buffer for raft.rs `try_batching`: rewrite the first
pending MsgAppend to the peer, returning the new buffer, whether batching
happened, and the last batched index (when entries were added). -/
def try_batching_msgs (committed to_ : Nat) (ents : List Entry) :
    List Message → List Message × Bool × Option Nat
  | [] => ([], false, none)
  | msg :: rest =>
    if msg.msg_type = .MsgAppend ∧ msg.to_ = to_ then
      if ents.isEmpty then
        ({ msg with commit := committed } :: rest, true, none)
      else if ¬ Raft.is_continuous_ents msg ents then (msg :: rest, false, none)
      else
        let newEnts := msg.entries ++ ents
        ({ msg with entries := newEnts, commit := committed } :: rest, true,
         (newEnts.getLast?).map (fun e => e.index))
    else
      let r := try_batching_msgs committed to_ ents rest
      (msg :: r.1, r.2.1, r.2.2)

/-- raft.rs `try_batching`. -/
def try_batching (s : Raft) (to_ : Nat) (pr : Progress) (ents : List Entry) :
    Bool × Raft × Progress :=
  let r := try_batching_msgs s.raft_log.committed to_ ents s.msgs
  let pr :=
    match r.2.2 with
    | some last => pr.update_state last
    | none => pr
  (r.2.1, { s with msgs := r.1 }, pr)

/-- raft.rs `send_append`: skip a paused peer; on a compacted log fall
back to a snapshot; otherwise batch into a pending append or send a fresh
one. -/
def send_append (s : Raft) (to_ : Nat) (pr : Progress) : Option (Raft × Progress) :=
  if pr.is_paused then some (s, pr)
  else
    let m := { Message.default with to_ := to_ }
    match s.raft_log.term (pr.next_idx - 1), s.raft_log.entries_from pr.next_idx with
    | some t, some ents =>
      if s.batch_append then
        match try_batching s to_ pr ents with
        | (true, s2, pr2) => some (s2, pr2)
        | (false, s2, pr2) =>
          let r := prepare_send_entries s2 m pr2 t ents
          (send s2 r.1).map (fun s3 => (s3, r.2))
      else
        let r := prepare_send_entries s m pr t ents
        (send s r.1).map (fun s3 => (s3, r.2))
    | _, _ =>
      match prepare_send_snapshot s m pr with
      | none => none
      | some (false, _, pr2) => some (s, pr2)
      | some (true, m2, pr2) => (send s m2).map (fun s3 => (s3, pr2))

/-- raft.rs `send_heartbeat`: commit is clamped to the peer's matched
index. -/
def send_heartbeat (s : Raft) (to_ : Nat) (pr : Progress) (ctx : Option (List Nat)) :
    Option Raft :=
  let m := { Message.default with
             to_ := to_,
             msg_type := .MsgHeartbeat,
             commit := min pr.matched s.raft_log.committed }
  let m :=
    match ctx with
    | some c => { m with context := c }
    | none => m
  send s m

/-- Option-valued fold used for the message-emitting loops; `none`
propagates a process abort. -/
def foldSome (f : Raft → α → Option Raft) : List α → Raft → Option Raft
  | [], s => some s
  | a :: as_, s =>
    match f s a with
    | none => none
    | some s2 => foldSome f as_ s2

/-- raft.rs `bcast_append`: `send_append` to every peer but self, writing
each peer's updated progress back. -/
def bcast_append (s : Raft) : Option Raft :=
  foldSome
    (fun st p =>
      if p.1 = st.id then some st
      else
        match send_append st p.1 p.2 with
        | none => none
        | some (st2, pr2) => some { st2 with prs := st2.prs.update p.1 pr2 })
    s.prs.progress s

/-- raft.rs `bcast_heartbeat_with_ctx`. -/
def bcast_heartbeat_with_ctx (s : Raft) (ctx : Option (List Nat)) : Option Raft :=
  foldSome
    (fun st p => if p.1 = st.id then some st else send_heartbeat st p.1 p.2 ctx)
    s.prs.progress s

/-- raft.rs `bcast_heartbeat`. -/
def bcast_heartbeat (s : Raft) : Option Raft :=
  bcast_heartbeat_with_ctx s (s.read_only.last_pending_request_ctx)

/-- raft.rs `maybe_commit`: try to advance the commit index to the
quorum-replicated index of the current term. -/
def maybe_commit (s : Raft) : Raft × Bool :=
  let mci := s.prs.maximal_committed_index
  let r := s.raft_log.maybe_commit mci s.term
  ({ s with raft_log := r.1 }, r.2)

/-- raft.rs `append_entry`: stamp term and consecutive indices, append,
update own progress (unwrap aborts when self has no progress), and try to
commit. -/
def append_entry (s : Raft) (es : List Entry) : Option Raft :=
  let li := s.raft_log.last_index
  let es := es.enum.map (fun ie => { ie.2 with term := s.term, index := li + 1 + ie.1 })
  let l := s.raft_log.append es
  match s.prs.get s.id with
  | none => none
  | some pr =>
    let pr := (pr.maybe_update l.last_index).1
    some (maybe_commit { s with raft_log := l, prs := s.prs.update s.id pr }).1

/-- raft.rs `num_pending_conf`. -/
def num_pending_conf (ents : List Entry) : Nat :=
  (ents.filter (fun e => e.entry_type = .EntryConfChange)).length

/-- raft.rs `has_pending_conf`. -/
def has_pending_conf (s : Raft) : Bool :=
  s.raft_log.applied < s.pending_conf_index ∨ s.pending_membership_change.isSome

/-- raft.rs `should_bcast_commit`. -/
def should_bcast_commit (s : Raft) : Bool :=
  ¬ s.skip_bcast_commit ∨ has_pending_conf s

/-- raft.rs `promotable`: self is a voter. -/
def promotable (s : Raft) : Bool :=
  s.id ∈ s.prs.voter_ids

/-- raft.rs `pass_election_timeout`. -/
def pass_election_timeout (s : Raft) : Bool :=
  s.randomized_election_timeout ≤ s.election_elapsed

/-- raft.rs `reset_randomized_election_timeout`, drawing from the
modelled randomizer stream (spec section 9): a number in
[min_election_timeout, max_election_timeout). -/
def reset_randomized_election_timeout (s : Raft) : Raft :=
  match s.rand with
  | [] => { s with randomized_election_timeout := s.min_election_timeout }
  | r :: rest =>
    let w := s.max_election_timeout - s.min_election_timeout
    let t := if 0 < w then s.min_election_timeout + r % w else s.min_election_timeout
    { s with randomized_election_timeout := t, rand := rest }

/-- raft.rs `abort_leader_transfer`. -/
def abort_leader_transfer (s : Raft) : Raft :=
  { s with lead_transferee := none }

/-- raft.rs `reset`: adopt the term (clearing the vote when it changes),
clear leadership and campaign state, restart the timers, and reset every
peer's progress. -/
def reset (s : Raft) (term : Nat) : Raft :=
  let s := if s.term ≠ term then { s with term := term, vote := 0 } else s
  let s := { s with leader_id := 0 }
  let s := reset_randomized_election_timeout s
  let s := { s with
             election_elapsed := 0,
             heartbeat_elapsed := 0,
             lead_transferee := none,
             votes := [],
             pending_conf_index := 0,
             read_only := ReadOnly.new s.read_only.option }
  let li := s.raft_log.last_index
  let prog := s.prs.progress.map (fun p =>
    let pr := p.2.reset (li + 1)
    (p.1, if p.1 = s.id then { pr with matched := li } else pr))
  { s with prs := { s.prs with progress := prog } }

/-- raft.rs `send_timeout_now`. -/
def send_timeout_now (s : Raft) (to_ : Nat) : Option Raft :=
  send s (new_message to_ .MsgTimeoutNow none)

/-- raft.rs `check_quorum_active`. -/
def check_quorum_active (s : Raft) : Raft × Bool :=
  let r := s.prs.quorum_recently_active s.id
  ({ s with prs := r.2 }, r.1)

/-- raft.rs `register_vote`: the first recorded vote of a voter wins
(HashMap entry or_insert). -/
def register_vote (s : Raft) (id : Nat) (vote : Bool) : Raft :=
  if (s.votes.lookup id).isSome then s
  else { s with votes := s.votes ++ [(id, vote)] }

/-- raft.rs `become_follower`. -/
def become_follower (s : Raft) (term leader_id : Nat) : Raft :=
  let s := reset s term
  { s with leader_id := leader_id, state := .Follower }

/-- raft.rs `become_candidate`; asserts this is not a leader. -/
def become_candidate (s : Raft) : Option Raft :=
  if s.state = .Leader then none
  else
    let s := reset s (s.term + 1)
    some { s with vote := s.id, state := .Candidate }

/-- raft.rs `become_pre_candidate`; asserts this is not a leader.  Term
and vote are untouched; only the role, the tally and the leader id
change. -/
def become_pre_candidate (s : Raft) : Option Raft :=
  if s.state = .Leader then none
  else some { s with state := .PreCandidate, votes := [], leader_id := 0 }

/-- raft.rs `append_finalize_conf_change_entry`: append a ConfChange
entry holding an encoded FinalizeMembershipChange and broadcast. -/
def append_finalize_conf_change_entry (s : Raft) : Option Raft :=
  let conf_change : ConfChange :=
    { change_type := .FinalizeMembershipChange, configuration := none, start_index := 0 }
  let e := { Entry.default with
             entry_type := .EntryConfChange,
             data := encodeConfChange conf_change }
  match append_entry s [e] with
  | none => none
  | some s2 => bcast_append s2

/-- The membership-change tail of `become_leader`: once the no-op entry
is appended the pending change is re-finalized when already committed. -/
def become_leader_tail (sm : Raft) : Option Raft :=
  match sm.pending_membership_change with
  | some change =>
    if change.start_index ≤ sm.raft_log.committed then
      append_finalize_conf_change_entry sm
    else some sm
  | none => some sm

/-- raft.rs `become_leader`: asserts this is not a follower; reset at the
same term, claim leadership, replicate own progress, conservatively set
pending_conf_index to the last index, append the empty no-op entry, and
re-append a finalize entry for a committed pending membership change. -/
def become_leader (s : Raft) : Option Raft :=
  if s.state = .Follower then none
  else
    let s := reset s s.term
    let s := { s with leader_id := s.id, state := .Leader }
    match s.prs.get s.id with
    | none => none
    | some pr =>
      let s := { s with prs := s.prs.update s.id pr.become_replicate }
      let s := { s with pending_conf_index := s.raft_log.last_index }
      match append_entry s [Entry.default] with
      | none => none
      | some s2 => become_leader_tail s2


/-- raft.rs `campaign`, with the single recursive hand-off from the
pre-election phase to the election phase unrolled by a depth counter
(the recursion depth in the source is at most one). -/
def campaignGo : Nat → Raft → List Nat → Option Raft
  | 0, _, _ => none
  | depth + 1, s, campaign_type =>
    let pre :=
      if campaign_type = CAMPAIGN_PRE_ELECTION then
        (become_pre_candidate s).map (fun s2 => (s2, MessageType.MsgRequestPreVote, s2.term + 1))
      else
        (become_candidate s).map (fun s2 => (s2, MessageType.MsgRequestVote, s2.term))
    match pre with
    | none => none
    | some (s, vote_msg, term) =>
      let s := register_vote s s.id true
      if s.prs.candidacy_status s.votes = .Elected then
        if campaign_type = CAMPAIGN_PRE_ELECTION then
          campaignGo depth s CAMPAIGN_ELECTION
        else become_leader s
      else
        foldSome
          (fun st id =>
            if id = st.id then some st
            else
              let m := { new_message id vote_msg none with
                         term := term,
                         index := st.raft_log.last_index,
                         log_term := st.raft_log.last_term,
                         context := if campaign_type = CAMPAIGN_TRANSFER then campaign_type else [] }
              send st m)
          s.prs.voter_ids s

/-- raft.rs `campaign`. -/
def campaign (s : Raft) (campaign_type : List Nat) : Option Raft :=
  campaignGo 2 s campaign_type

end Raft

namespace Raft

/-!  Follower-side message handlers. -/

/-- raft.rs `handle_append_entries`: an append below the commit index is
answered with the commit index; otherwise standard Raft append with a
non-rejecting response at the new last index or a rejection carrying a
hint. -/
def handle_append_entries (s : Raft) (m : Message) : Option Raft :=
  if m.index < s.raft_log.committed then
    send s { Message.default with
             to_ := m.from_, msg_type := .MsgAppendResponse, index := s.raft_log.committed }
  else
    match s.raft_log.maybe_append m.index m.log_term m.commit m.entries with
    | some (mlast, l) =>
      send { s with raft_log := l }
        { Message.default with to_ := m.from_, msg_type := .MsgAppendResponse, index := mlast }
    | none =>
      send s { Message.default with
               to_ := m.from_, msg_type := .MsgAppendResponse, index := m.index,
               reject := true, reject_hint := s.raft_log.last_index }

/-- raft.rs `handle_heartbeat`: commit to the leader's commit and echo the
context. -/
def handle_heartbeat (s : Raft) (m : Message) : Option Raft :=
  match s.raft_log.commit_to m.commit with
  | none => none
  | some l =>
    send { s with raft_log := l }
      { Message.default with
        to_ := m.from_, msg_type := .MsgHeartbeatResponse, context := m.context }

/-- raft.rs `restore_raft`: fast-forward commit when the snapshot point is
already in the log, refuse to demote self to a learner, otherwise rebuild
the progress set (and any pending membership change) from the snapshot
metadata. -/
def restore_raft (s : Raft) (snap : Snapshot) : Option (Raft × Option Bool) :=
  let meta := snap.metadata
  if s.raft_log.match_term meta.index meta.term then
    match s.raft_log.commit_to meta.index with
    | none => none
    | some l => some ({ s with raft_log := l }, some false)
  else if s.prs.progress.length ≠ 0 ∧ ¬ s.is_learner ∧ s.id ∈ meta.conf_state.learners then
    some (s, some false)
  else
    let next_idx := s.raft_log.last_index + 1
    let prs := ProgressSet.restore_snapmeta meta next_idx s.max_inflight
    match prs.get s.id with
    | none => none
    | some pr =>
      let prs := prs.update s.id { pr with matched := next_idx - 1 }
      let s := { s with prs := prs }
      let s :=
        if s.is_learner ∧ s.id ∈ s.prs.configuration.voters then
          { s with is_learner := false }
        else s
      let restored_change : ConfChange :=
        { change_type := .BeginMembershipChange,
          configuration := some meta.pending_membership_change,
          start_index := meta.pending_membership_change_index }
      let s :=
        if 0 < meta.pending_membership_change_index then
          { s with pending_membership_change := some restored_change }
        else s
      some (s, none)

/-- raft.rs `restore`: ignore a snapshot below the commit index; else
defer to restore_raft and, for a full restore, replace the log. -/
def restore (s : Raft) (snap : Snapshot) : Option (Raft × Bool) :=
  if snap.metadata.index < s.raft_log.committed then some (s, false)
  else
    match restore_raft s snap with
    | none => none
    | some (s, some b) => some (s, b)
    | some (s, none) => some ({ s with raft_log := s.raft_log.restore snap }, true)

/-- raft.rs `handle_snapshot`: a restored snapshot is acknowledged at the
new last index, an ignored one at the commit index. -/
def handle_snapshot (s : Raft) (m : Message) : Option Raft :=
  match restore s m.snapshot with
  | none => none
  | some (s, true) =>
    send s { Message.default with
             to_ := m.from_, msg_type := .MsgAppendResponse, index := s.raft_log.last_index }
  | some (s, false) =>
    send s { Message.default with
             to_ := m.from_, msg_type := .MsgAppendResponse, index := s.raft_log.committed }

/-!  Leader-side message handlers. -/

/-- The accumulator flags of raft.rs `step_leader`'s progress-checking
phase (`send_append`, `old_paused`, `maybe_commit`, `more_to_send`). -/
structure StepFlags where
  send_append : Bool
  old_paused : Bool
  do_commit : Bool
  more_to_send : List Message

/-- raft.rs `handle_append_response`. -/
def handle_append_response (s : Raft) (m : Message) (f : StepFlags) :
    Option (Raft × StepFlags) :=
  match s.prs.get m.from_ with
  | none => none
  | some pr =>
    let pr := { pr with recent_active := true }
    if m.reject then
      let r := pr.maybe_decr_to m.index m.reject_hint
      if r.2 then
        let pr2 := if r.1.state = .Replicate then r.1.become_probe else r.1
        some ({ s with prs := s.prs.update m.from_ pr2 }, { f with send_append := true })
      else some ({ s with prs := s.prs.update m.from_ r.1 }, f)
    else
      let f := { f with old_paused := pr.is_paused }
      let r := pr.maybe_update m.index
      if ¬ r.2 then some ({ s with prs := s.prs.update m.from_ r.1 }, f)
      else
        let pr := r.1
        let sendTN : Bool :=
          match s.lead_transferee with
          | some lt => m.from_ = lt ∧ pr.matched = s.raft_log.last_index
          | none => false
        match (if sendTN then send_timeout_now s m.from_ else some s) with
        | none => none
        | some s =>
          match pr.state with
          | .Probe =>
            some ({ s with prs := s.prs.update m.from_ pr.become_replicate },
                  { f with do_commit := true })
          | .Snapshot =>
            if ¬ pr.maybe_snapshot_abort then
              some ({ s with prs := s.prs.update m.from_ pr }, f)
            else
              some ({ s with prs := s.prs.update m.from_ pr.become_probe },
                    { f with do_commit := true })
          | .Replicate =>
            some ({ s with prs := s.prs.update m.from_ (pr.free_to m.index) },
                  { f with do_commit := true })

/-- Emission loop of raft.rs `handle_heartbeat_response`: local requests
yield read states, forwarded ones queue ReadIndexResp messages. -/
def emit_read_states (s : Raft) (f : StepFlags) :
    List ReadIndexStatus → Option (Raft × StepFlags)
  | [] => some (s, f)
  | rs :: rest =>
    if rs.req.from_ = 0 ∨ rs.req.from_ = s.id then
      match rs.req.entries.head? with
      | none => none
      | some e0 =>
        emit_read_states
          { s with read_states := s.read_states ++ [⟨rs.index, e0.data⟩] } f rest
    else
      emit_read_states s
        { f with more_to_send := f.more_to_send ++
            [{ Message.default with
               to_ := rs.req.from_, msg_type := .MsgReadIndexResp,
               index := rs.index, entries := rs.req.entries }] } rest

/-- raft.rs `handle_heartbeat_response`. -/
def handle_heartbeat_response (s : Raft) (m : Message) (f : StepFlags) :
    Option (Raft × StepFlags) :=
  match s.prs.get m.from_ with
  | none => none
  | some pr =>
    let pr := { pr with recent_active := true }
    let pr := pr.resume
    let pr :=
      if pr.state = .Replicate ∧ pr.ins_cap ≤ pr.ins.length then pr.free_first_one else pr
    let f := if pr.matched < s.raft_log.last_index then { f with send_append := true } else f
    let s := { s with prs := s.prs.update m.from_ pr }
    if s.read_only.option ≠ .Safe ∨ m.context.isEmpty then some (s, f)
    else
      let r := s.read_only.recv_ack m
      let s := { s with read_only := r.2 }
      if ¬ s.prs.has_quorum r.1 then some (s, f)
      else
        let a := s.read_only.advance m
        let s := { s with read_only := a.2 }
        emit_read_states s f a.1

/-- raft.rs `handle_snapshot_status`: move the peer back to Probe (noting
a failure) and pause it until the next answer or heartbeat interval. -/
def handle_snapshot_status (m : Message) (pr : Progress) : Progress :=
  let pr := if m.reject then pr.snapshot_failure.become_probe else pr.become_probe
  pr.pause

/-- Tail of raft.rs `handle_transfer_leader` once a previous transfer has
been resolved. -/
def handle_transfer_leader_go (s : Raft) (lt : Nat) : Option Raft :=
  if lt = s.id then some s
  else
    let s := { s with election_elapsed := 0, lead_transferee := some lt }
    match s.prs.get lt with
    | none => none
    | some pr =>
      if pr.matched = s.raft_log.last_index then send_timeout_now s lt
      else (send_append s lt pr).map (fun r => { r.1 with prs := r.1.prs.update lt r.2 })

/-- raft.rs `handle_transfer_leader`: ignore learners, duplicate targets
and self-transfers; abort a different in-flight transfer; then start the
transfer, sending MsgTimeoutNow at once to a caught-up target. -/
def handle_transfer_leader (s : Raft) (m : Message) : Option Raft :=
  if m.from_ ∈ s.prs.learner_ids then some s
  else
    match s.lead_transferee with
    | some last =>
      if last = m.from_ then some s
      else handle_transfer_leader_go (abort_leader_transfer s) m.from_
    | none => handle_transfer_leader_go s m.from_

/-- raft.rs `check_message_with_progress`: dispatch messages that require
a sender progress, accumulating the follow-up flags. -/
def check_message_with_progress (s : Raft) (m : Message) : Option (Raft × StepFlags) :=
  let f : StepFlags := ⟨false, false, false, []⟩
  if (s.prs.get m.from_).isNone then some (s, f)
  else
    match m.msg_type with
    | .MsgAppendResponse => handle_append_response s m f
    | .MsgHeartbeatResponse => handle_heartbeat_response s m f
    | .MsgSnapStatus =>
      match s.prs.get m.from_ with
      | none => none
      | some pr =>
        if pr.state = .Snapshot then
          some ({ s with prs := s.prs.update m.from_ (handle_snapshot_status m pr) }, f)
        else some (s, f)
    | .MsgUnreachable =>
      match s.prs.get m.from_ with
      | none => none
      | some pr =>
        let pr := if pr.state = .Replicate then pr.become_probe else pr
        some ({ s with prs := s.prs.update m.from_ pr }, f)
    | .MsgTransferLeader => (handle_transfer_leader s m).map (fun s2 => (s2, f))
    | _ => some (s, f)

/-!  Role step functions. -/

/-- ConfChange-entry screening loop of the leader `MsgPropose` arm:
a conf-change entry is blanked to a Normal no-op when a conf change is
already pending, else it bumps `pending_conf_index` to its future
index. -/
def process_conf_entries (s : Raft) (li i : Nat) : List Entry → Raft × List Entry
  | [] => (s, [])
  | e :: rest =>
    if e.entry_type = .EntryConfChange then
      if has_pending_conf s then
        let r := process_conf_entries s li (i + 1) rest
        (r.1, { Entry.default with entry_type := .EntryNormal } :: r.2)
      else
        let s := { s with pending_conf_index := li + i + 1 }
        let r := process_conf_entries s li (i + 1) rest
        (r.1, e :: r.2)
    else
      let r := process_conf_entries s li (i + 1) rest
      (r.1, e :: r.2)

/-- The `MsgPropose` arm of raft.rs `step_leader`: panics on an empty
proposal; drops it when self is no longer a voter or a leader transfer is
in flight; otherwise screens conf-change entries, appends and
broadcasts. -/
def step_leader_propose (s : Raft) (m : Message) : Option (Raft × Option RaftError) :=
  if m.entries.isEmpty then none
  else if ¬ s.id ∈ s.prs.voter_ids then some (s, some .ProposalDropped)
  else if s.lead_transferee.isSome then some (s, some .ProposalDropped)
  else
    let r := process_conf_entries s s.raft_log.last_index 0 m.entries
    match append_entry r.1 r.2 with
    | none => none
    | some s2 => (bcast_append s2).map (fun s3 => (s3, none))

/-- The `MsgReadIndex` arm of raft.rs `step_leader`: reject when no entry
of the current term is committed; a single-voter quorum answers directly;
otherwise go through the safe (heartbeat round) or lease-based path. -/
def step_leader_read_index (s : Raft) (m : Message) : Option (Raft × Option RaftError) :=
  if (s.raft_log.term s.raft_log.committed).getD 0 ≠ s.term then some (s, none)
  else if ¬ s.prs.has_quorum [s.id] then
    match s.read_only.option with
    | .Safe =>
      match m.entries.head? with
      | none => none
      | some e0 =>
        let s := { s with read_only := s.read_only.add_request s.raft_log.committed m }
        (bcast_heartbeat_with_ctx s (some e0.data)).map (fun s2 => (s2, none))
    | .LeaseBased =>
      let read_index := s.raft_log.committed
      if m.from_ = 0 ∨ m.from_ = s.id then
        match m.entries.head? with
        | none => none
        | some e0 =>
          some ({ s with read_states := s.read_states ++ [⟨read_index, e0.data⟩] }, none)
      else
        (send s { Message.default with
                  to_ := m.from_, msg_type := .MsgReadIndexResp,
                  index := read_index, entries := m.entries }).map (fun s2 => (s2, none))
  else
    match m.entries.head? with
    | none => none
    | some e0 =>
      some ({ s with read_states := s.read_states ++ [⟨s.raft_log.committed, e0.data⟩] }, none)

/-- Progress-dependent tail of raft.rs `step_leader`: run the progress
check, then commit/broadcast, schedule a direct append, and flush queued
responses. -/
def step_leader_progress (s : Raft) (m : Message) : Option (Raft × Option RaftError) :=
  match check_message_with_progress s m with
  | none => none
  | some (s, f) =>
    let afterCommit : Option (Raft × Bool) :=
      if f.do_commit then
        let r := maybe_commit s
        if r.2 then
          if should_bcast_commit r.1 then
            (bcast_append r.1).map (fun s2 => (s2, f.send_append))
          else some (r.1, f.send_append)
        else some (r.1, f.send_append ∨ f.old_paused)
      else some (s, f.send_append)
    match afterCommit with
    | none => none
    | some (s, sendApp) =>
      let afterSend : Option Raft :=
        if sendApp then
          match s.prs.get m.from_ with
          | none => none
          | some pr =>
            (send_append s m.from_ pr).map
              (fun r => { r.1 with prs := r.1.prs.update m.from_ r.2 })
        else some s
      match afterSend with
      | none => none
      | some s => (foldSome send f.more_to_send s).map (fun s2 => (s2, none))

/-- raft.rs `step_leader`. -/
def step_leader (s : Raft) (m : Message) : Option (Raft × Option RaftError) :=
  match m.msg_type with
  | .MsgBeat => (bcast_heartbeat s).map (fun s2 => (s2, none))
  | .MsgCheckQuorum =>
    let r := check_quorum_active s
    if ¬ r.2 then some (become_follower r.1 r.1.term 0, none)
    else some (r.1, none)
  | .MsgPropose => step_leader_propose s m
  | .MsgReadIndex => step_leader_read_index s m
  | _ => step_leader_progress s m

/-- Vote-response arm of raft.rs `step_candidate`: ignore responses of the
wrong phase, record the vote, and act on the tally. -/
def step_candidate_vote_resp (s : Raft) (m : Message) : Option (Raft × Option RaftError) :=
  if (s.state = .PreCandidate ∧ m.msg_type ≠ .MsgRequestPreVoteResponse) ∨
      (s.state = .Candidate ∧ m.msg_type ≠ .MsgRequestVoteResponse) then
    some (s, none)
  else
    let acceptance := ¬ m.reject
    let s := register_vote s m.from_ acceptance
    match s.prs.candidacy_status s.votes with
    | .Elected =>
      if s.state = .PreCandidate then
        (campaign s CAMPAIGN_ELECTION).map (fun s2 => (s2, none))
      else
        match become_leader s with
        | none => none
        | some s2 => (bcast_append s2).map (fun s3 => (s3, none))
    | .Ineligible => some (become_follower s s.term 0, none)
    | .Eligible => some (s, none)

/-- raft.rs `step_candidate` (PreCandidate and Candidate).  The term
equality debug assertions on Append, Heartbeat and Snapshot are no-ops in
release builds. -/
def step_candidate (s : Raft) (m : Message) : Option (Raft × Option RaftError) :=
  match m.msg_type with
  | .MsgPropose => some (s, some .ProposalDropped)
  | .MsgAppend =>
    let s := become_follower s m.term m.from_
    (handle_append_entries s m).map (fun s2 => (s2, none))
  | .MsgHeartbeat =>
    let s := become_follower s m.term m.from_
    (handle_heartbeat s m).map (fun s2 => (s2, none))
  | .MsgSnapshot =>
    let s := become_follower s m.term m.from_
    (handle_snapshot s m).map (fun s2 => (s2, none))
  | .MsgRequestPreVoteResponse => step_candidate_vote_resp s m
  | .MsgRequestVoteResponse => step_candidate_vote_resp s m
  | .MsgTimeoutNow => some (s, none)
  | _ => some (s, none)

/-- raft.rs `step_follower`. -/
def step_follower (s : Raft) (m : Message) : Option (Raft × Option RaftError) :=
  match m.msg_type with
  | .MsgPropose =>
    if s.leader_id = 0 then some (s, some .ProposalDropped)
    else (send s { m with to_ := s.leader_id }).map (fun s2 => (s2, none))
  | .MsgAppend =>
    let s := { s with election_elapsed := 0, leader_id := m.from_ }
    (handle_append_entries s m).map (fun s2 => (s2, none))
  | .MsgHeartbeat =>
    let s := { s with election_elapsed := 0, leader_id := m.from_ }
    (handle_heartbeat s m).map (fun s2 => (s2, none))
  | .MsgSnapshot =>
    let s := { s with election_elapsed := 0, leader_id := m.from_ }
    (handle_snapshot s m).map (fun s2 => (s2, none))
  | .MsgTransferLeader =>
    if s.leader_id = 0 then some (s, none)
    else (send s { m with to_ := s.leader_id }).map (fun s2 => (s2, none))
  | .MsgTimeoutNow =>
    if promotable s then (campaign s CAMPAIGN_TRANSFER).map (fun s2 => (s2, none))
    else some (s, none)
  | .MsgReadIndex =>
    if s.leader_id = 0 then some (s, none)
    else (send s { m with to_ := s.leader_id }).map (fun s2 => (s2, none))
  | .MsgReadIndexResp =>
    if m.entries.length ≠ 1 then some (s, none)
    else
      match m.entries.head? with
      | none => some (s, none)
      | some e0 =>
        some ({ s with read_states := s.read_states ++ [⟨m.index, e0.data⟩] }, none)
  | _ => some (s, none)

/-!  The step entry point. -/

/-- Term-handling phase of raft.rs `step`, performed before type
dispatch.  The boolean is true when the message goes on to dispatch,
false when `step` returns Ok early (lease-protected vote, or a stale-term
message answered or dropped). -/
def stepTermPhase (s : Raft) (m : Message) : Option (Bool × Raft) :=
  if m.term = 0 then some (true, s)
  else if s.term < m.term then
    if (m.msg_type = .MsgRequestVote ∨ m.msg_type = .MsgRequestPreVote) ∧
        m.context ≠ CAMPAIGN_TRANSFER ∧
        (s.check_quorum ∧ s.leader_id ≠ 0 ∧ s.election_elapsed < s.election_timeout) then
      some (false, s)
    else if m.msg_type = .MsgRequestPreVote ∨
        (m.msg_type = .MsgRequestPreVoteResponse ∧ m.reject = false) then
      some (true, s)
    else if m.msg_type = .MsgAppend ∨ m.msg_type = .MsgHeartbeat ∨
        m.msg_type = .MsgSnapshot then
      some (true, become_follower s m.term m.from_)
    else some (true, become_follower s m.term 0)
  else if m.term < s.term then
    if (s.check_quorum ∨ s.pre_vote) ∧
        (m.msg_type = .MsgHeartbeat ∨ m.msg_type = .MsgAppend) then
      (send s (new_message m.from_ .MsgAppendResponse none)).map (fun s2 => (false, s2))
    else if m.msg_type = .MsgRequestPreVote then
      (send s { new_message m.from_ .MsgRequestPreVoteResponse none with
                term := s.term, reject := true }).map (fun s2 => (false, s2))
    else some (false, s)
  else some (true, s)

/-- The `MsgHup` arm of raft.rs `step`: a non-leader with no unapplied
conf-change entries campaigns (pre-vote first when enabled). -/
def stepHup (s : Raft) : Option Raft :=
  if s.state ≠ .Leader then
    match s.raft_log.slice (s.raft_log.applied + 1) (s.raft_log.committed + 1) with
    | none => none
    | some ents =>
      if num_pending_conf ents ≠ 0 ∧ s.raft_log.applied < s.raft_log.committed then some s
      else if s.pre_vote then campaign s CAMPAIGN_PRE_ELECTION
      else campaign s CAMPAIGN_ELECTION
  else some s

/-- The RequestVote / RequestPreVote arm of raft.rs `step`, after term
handling.  The log-term debug assertion is a no-op in release builds. -/
def stepVoteRequest (s : Raft) (m : Message) : Option Raft :=
  let can_vote := (s.vote = m.from_) ∨ (s.vote = 0 ∧ s.leader_id = 0) ∨
      (m.msg_type = .MsgRequestPreVote ∧ s.term < m.term)
  match vote_resp_msg_type m.msg_type with
  | none => none
  | some resp_type =>
    if can_vote ∧ s.raft_log.is_up_to_date m.index m.log_term then
      match send s { new_message m.from_ resp_type none with
                     reject := false, term := m.term } with
      | none => none
      | some s =>
        if m.msg_type = .MsgRequestVote then
          some { s with election_elapsed := 0, vote := m.from_ }
        else some s
    else
      send s { new_message m.from_ resp_type none with reject := true, term := s.term }

/-- raft.rs `step`: term handling, then dispatch by type and role. -/
def step (s : Raft) (m : Message) : Option (Raft × Option RaftError) :=
  match stepTermPhase s m with
  | none => none
  | some (false, s) => some (s, none)
  | some (true, s) =>
    match m.msg_type with
    | .MsgHup => (stepHup s).map (fun s2 => (s2, none))
    | .MsgRequestVote => (stepVoteRequest s m).map (fun s2 => (s2, none))
    | .MsgRequestPreVote => (stepVoteRequest s m).map (fun s2 => (s2, none))
    | _ =>
      match s.state with
      | .PreCandidate => step_candidate s m
      | .Candidate => step_candidate s m
      | .Follower => step_follower s m
      | .Leader => step_leader s m

/-!  Tick. -/

/-- raft.rs `tick_election`: count a tick; on a passed randomized timeout
of a promotable node, deliver a local MsgHup. -/
def tick_election (s : Raft) : Option (Raft × Bool) :=
  let s := { s with election_elapsed := s.election_elapsed + 1 }
  if ¬ (pass_election_timeout s ∧ promotable s) then some (s, false)
  else
    let s := { s with election_elapsed := 0 }
    match step s (new_message 0 .MsgHup (some s.id)) with
    | none => none
    | some (s, _) => some (s, true)

/-- raft.rs `tick_heartbeat`: count both timers; at the election timeout
run the quorum check and abort a dangling transfer; at the heartbeat
timeout deliver a local MsgBeat. -/
def tick_heartbeat (s : Raft) : Option (Raft × Bool) :=
  let s := { s with
             heartbeat_elapsed := s.heartbeat_elapsed + 1,
             election_elapsed := s.election_elapsed + 1 }
  let phase1 : Option (Raft × Bool) :=
    if s.election_timeout ≤ s.election_elapsed then
      let s := { s with election_elapsed := 0 }
      let checked : Option (Raft × Bool) :=
        if s.check_quorum then
          match step s (new_message 0 .MsgCheckQuorum (some s.id)) with
          | none => none
          | some (s, _) => some (s, true)
        else some (s, false)
      match checked with
      | none => none
      | some (s, hr) =>
        if s.state = .Leader ∧ s.lead_transferee.isSome then
          some (abort_leader_transfer s, hr)
        else some (s, hr)
    else some (s, false)
  match phase1 with
  | none => none
  | some (s, has_ready) =>
    if s.state ≠ .Leader then some (s, has_ready)
    else if s.heartbeat_timeout ≤ s.heartbeat_elapsed then
      let s := { s with heartbeat_elapsed := 0 }
      match step s (new_message 0 .MsgBeat (some s.id)) with
      | none => none
      | some (s, _) => some (s, true)
    else some (s, has_ready)

/-- raft.rs `tick`. -/
def tick (s : Raft) : Option (Raft × Bool) :=
  match s.state with
  | .Leader => tick_heartbeat s
  | _ => tick_election s

/-!  Membership changes applied from entries. -/

/-- raft.rs `set_pending_membership_change`: asserts a new change agrees
with `pending_conf_index` when one is already pending, and raises
`pending_conf_index` to the start index. -/
def set_pending_membership_change (s : Raft) (mc : Option ConfChange) : Option Raft :=
  match mc with
  | some change =>
    if s.pending_membership_change.isSome ∧ change.start_index ≠ s.pending_conf_index then
      none
    else
      let s :=
        if s.pending_conf_index < change.start_index then
          { s with pending_conf_index := change.start_index }
        else s
      some { s with pending_membership_change := mc }
  | none => some { s with pending_membership_change := none }

/-- raft.rs `begin_membership_change`: validate the ConfChange, record it
as pending and install the joint configuration. -/
def begin_membership_change (s : Raft) (cc : ConfChange) : Option (Raft × Option RaftError) :=
  if cc.change_type ≠ .BeginMembershipChange then some (s, some .ViolatesContract)
  else
    match cc.configuration with
    | none => some (s, some .ViolatesContract)
    | some cfg =>
      if cc.start_index = 0 then some (s, some .ViolatesContract)
      else
        match set_pending_membership_change s (some cc) with
        | none => none
        | some s =>
          let pr := Progress.new (s.raft_log.last_index + 1) s.max_inflight
          some ({ s with prs := s.prs.begin_membership_change cfg pr }, none)

/-- raft.rs `finalize_membership_change`: validate, step down (or clear
the leader id) when the leader is not in the new configuration, collapse
the progress set and clear the pending change. -/
def finalize_membership_change (s : Raft) (cc : ConfChange) : Option (Raft × Option RaftError) :=
  if cc.change_type ≠ .FinalizeMembershipChange then some (s, some .ViolatesContract)
  else if cc.has_configuration then some (s, some .ViolatesContract)
  else
    match s.prs.next_configuration with
    | none => some (s, some .NoPendingMembershipChange)
    | some cfg =>
      let leader_in := s.leader_id ∈ cfg.voters ∨ s.leader_id ∈ cfg.learners
      let s :=
        if ¬ leader_in then
          if s.state = .Leader then become_follower s s.raft_log.last_term 0
          else { s with leader_id := 0 }
        else s
      match s.prs.finalize_membership_change with
      | none => some (s, some .NoPendingMembershipChange)
      | some prs2 =>
        some ({ s with prs := prs2, pending_membership_change := none }, none)

end Raft

/-!  Structural characterization lemmas for the message-emitting helpers.
Thanks to definitional structure eta, a state that only gained outbound
messages is literally a `msgs`-update of the original. -/

namespace Raft

theorem send_spec {s : Raft} {m : Message} {s2 : Raft} (h : send s m = some s2) :
    ∃ m2, s2 = { s with msgs := s.msgs ++ [m2] } := by
  unfold send at h
  simp only [] at h
  split at h
  · split at h
    · exact absurd h (by simp)
    · exact ⟨_, (Option.some.inj h).symm⟩
  · split at h
    · exact absurd h (by simp)
    · exact ⟨_, (Option.some.inj h).symm⟩

theorem send_term {s : Raft} {m : Message} {s2 : Raft} (h : send s m = some s2) :
    s2.term = s.term := by
  obtain ⟨m2, rfl⟩ := send_spec h; rfl

theorem foldSome_send_spec {ms : List Message} {s s2 : Raft}
    (h : foldSome send ms s = some s2) :
    ∃ added, s2 = { s with msgs := s.msgs ++ added } := by
  induction ms generalizing s with
  | nil =>
    refine ⟨[], ?_⟩
    unfold foldSome at h
    simp_all
  | cons a as ih =>
    unfold foldSome at h
    split at h
    · exact absurd h (by simp)
    · next s3 heq =>
      obtain ⟨added, rfl⟩ := ih h
      obtain ⟨m2, rfl⟩ := send_spec heq
      exact ⟨m2 :: added, by simp⟩

theorem send_heartbeat_spec {s : Raft} {to_ : Nat} {pr : Progress} {ctx : Option (List Nat)}
    {s2 : Raft} (h : send_heartbeat s to_ pr ctx = some s2) :
    ∃ m2, s2 = { s with msgs := s.msgs ++ [m2] } := by
  unfold send_heartbeat at h
  exact send_spec h

theorem bcast_heartbeat_with_ctx_spec {ps : List (Nat × Progress)} {s s2 : Raft}
    {ctx : Option (List Nat)}
    (h : foldSome (fun st p => if p.1 = st.id then some st else send_heartbeat st p.1 p.2 ctx)
        ps s = some s2) :
    ∃ added, s2 = { s with msgs := s.msgs ++ added } := by
  induction ps generalizing s with
  | nil =>
    refine ⟨[], ?_⟩
    unfold foldSome at h
    simp_all
  | cons a as ih =>
    unfold foldSome at h
    split at h
    · exact absurd h (by simp)
    · next s3 heq =>
      obtain ⟨added, rfl⟩ := ih h
      split at heq
      · obtain rfl : s = s3 := Option.some.inj heq
        exact ⟨added, rfl⟩
      · obtain ⟨m2, rfl⟩ := send_heartbeat_spec heq
        exact ⟨m2 :: added, by simp⟩

theorem bcast_heartbeat_term {s s2 : Raft} (h : bcast_heartbeat s = some s2) :
    s2.term = s.term := by
  unfold bcast_heartbeat bcast_heartbeat_with_ctx at h
  obtain ⟨added, rfl⟩ := bcast_heartbeat_with_ctx_spec h; rfl

theorem bcast_heartbeat_ctx_term {s s2 : Raft} {ctx : Option (List Nat)}
    (h : bcast_heartbeat_with_ctx s ctx = some s2) : s2.term = s.term := by
  unfold bcast_heartbeat_with_ctx at h
  obtain ⟨added, rfl⟩ := bcast_heartbeat_with_ctx_spec h; rfl

theorem try_batching_state (s : Raft) (to_ : Nat) (pr : Progress) (ents : List Entry) :
    (try_batching s to_ pr ents).2.1 =
      { s with msgs := (try_batching_msgs s.raft_log.committed to_ ents s.msgs).1 } := rfl

/-- States that differ at most in the outbound message buffer. -/
def MsgsOnly (s s2 : Raft) : Prop := ∃ msgs2, s2 = { s with msgs := msgs2 }

theorem MsgsOnly.self (s : Raft) : MsgsOnly s s := ⟨s.msgs, rfl⟩

theorem MsgsOnly.chain {a b c : Raft} (h1 : MsgsOnly a b) (h2 : MsgsOnly b c) :
    MsgsOnly a c := by
  obtain ⟨x, rfl⟩ := h1
  obtain ⟨y, rfl⟩ := h2
  exact ⟨y, rfl⟩

theorem MsgsOnly.term_keep {a b : Raft} (h : MsgsOnly a b) : b.term = a.term := by
  obtain ⟨x, rfl⟩ := h; rfl

/-- States that differ at most in the message buffer and the progress
set. -/
def SendOnly (s s2 : Raft) : Prop := ∃ msgs2 prs2, s2 = { s with msgs := msgs2, prs := prs2 }

theorem MsgsOnly.sendOnly {a b : Raft} (h : MsgsOnly a b) : SendOnly a b := by
  obtain ⟨x, rfl⟩ := h
  exact ⟨x, a.prs, rfl⟩

theorem SendOnly.base (s : Raft) : SendOnly s s := ⟨s.msgs, s.prs, rfl⟩

theorem SendOnly.link {a b c : Raft} (h1 : SendOnly a b) (h2 : SendOnly b c) :
    SendOnly a c := by
  obtain ⟨x, y, rfl⟩ := h1
  obtain ⟨z, w, rfl⟩ := h2
  exact ⟨z, w, rfl⟩

theorem SendOnly.term_frame {a b : Raft} (h : SendOnly a b) : b.term = a.term := by
  obtain ⟨x, y, rfl⟩ := h; rfl

theorem SendOnly.raft_log {a b : Raft} (h : SendOnly a b) : b.raft_log = a.raft_log := by
  obtain ⟨x, y, rfl⟩ := h; rfl

theorem SendOnly.update_prs {a b : Raft} (h : SendOnly a b) (id : Nat) (pr : Progress) :
    SendOnly a { b with prs := b.prs.update id pr } := by
  obtain ⟨x, y, rfl⟩ := h
  exact ⟨x, _, rfl⟩

theorem send_msgsOnly {s : Raft} {m : Message} {s2 : Raft} (h : send s m = some s2) :
    MsgsOnly s s2 := by
  obtain ⟨m2, rfl⟩ := send_spec h
  exact ⟨_, rfl⟩

theorem send_append_spec {s : Raft} {to_ : Nat} {pr : Progress} {s2 : Raft} {pr2 : Progress}
    (h : send_append s to_ pr = some (s2, pr2)) : MsgsOnly s s2 := by
  unfold send_append at h
  split at h
  · have hfst : s = s2 := congrArg Prod.fst (Option.some.inj h)
    exact hfst ▸ MsgsOnly.self s
  · split at h
    · next t ents _ _ =>
      split at h
      · split at h
        · next s3 pr3 heq =>
          simp only [] at h
          have hfst : s3 = s2 := congrArg Prod.fst (Option.some.inj h)
          have hs3 : { s with msgs := (try_batching_msgs s.raft_log.committed to_ ents s.msgs).1 } = s3 := by
            rw [← try_batching_state s to_ pr ents]
            exact congrArg (fun x => x.2.1) heq
          exact hfst ▸ ⟨_, hs3.symm⟩
        · next s3 pr3 heq =>
          simp only [] at h
          rw [Option.map_eq_some'] at h
          obtain ⟨s4, hsend, h2⟩ := h
          have hfst : s4 = s2 := congrArg Prod.fst h2
          have hs3 : { s with msgs := (try_batching_msgs s.raft_log.committed to_ ents s.msgs).1 } = s3 := by
            rw [← try_batching_state s to_ pr ents]
            exact congrArg (fun x => x.2.1) heq
          exact hfst ▸ MsgsOnly.chain ⟨_, hs3.symm⟩ (send_msgsOnly hsend)
      · simp only [] at h
        rw [Option.map_eq_some'] at h
        obtain ⟨s4, hsend, h2⟩ := h
        have hfst : s4 = s2 := congrArg Prod.fst h2
        exact hfst ▸ send_msgsOnly hsend
    · simp only [] at h
      split at h
      · exact absurd h (by simp)
      · have hfst : s = s2 := congrArg Prod.fst (Option.some.inj h)
        exact hfst ▸ MsgsOnly.self s
      · rw [Option.map_eq_some'] at h
        obtain ⟨s4, hsend, h2⟩ := h
        have hfst : s4 = s2 := congrArg Prod.fst h2
        exact hfst ▸ send_msgsOnly hsend

theorem bcast_append_aux {ps : List (Nat × Progress)} {s s2 : Raft}
    (h : foldSome
        (fun st p =>
          if p.1 = st.id then some st
          else
            match send_append st p.1 p.2 with
            | none => none
            | some (st2, pr2) => some { st2 with prs := st2.prs.update p.1 pr2 })
        ps s = some s2) :
    SendOnly s s2 := by
  induction ps generalizing s with
  | nil =>
    unfold foldSome at h
    have hfst : s = s2 := Option.some.inj h
    exact hfst ▸ SendOnly.base s
  | cons a as ih =>
    unfold foldSome at h
    split at h
    · exact absurd h (by simp)
    · next s3 heq =>
      have step1 : SendOnly s s3 := by
        split at heq
        · have h3 : s = s3 := Option.some.inj heq
          exact h3 ▸ SendOnly.base s
        · split at heq
          · exact absurd heq (by simp)
          · next st2 pr2 hsa =>
            have h3 := Option.some.inj heq
            exact h3 ▸ ((send_append_spec hsa).sendOnly).update_prs a.1 pr2
      exact step1.link (ih h)

theorem bcast_append_spec {s s2 : Raft} (h : bcast_append s = some s2) : SendOnly s s2 := by
  unfold bcast_append at h
  exact bcast_append_aux h

end Raft

namespace Raft

/-- Structural description of `reset`: the exact effect on every field,
with the randomizer draw and progress rebuild existentially packaged. -/
theorem reset_spec (s : Raft) (t : Nat) :
    ∃ ret rand2 prog2, reset s t =
      { s with
        term := t,
        vote := if s.term = t then s.vote else 0,
        leader_id := 0,
        randomized_election_timeout := ret,
        rand := rand2,
        election_elapsed := 0,
        heartbeat_elapsed := 0,
        lead_transferee := none,
        votes := [],
        pending_conf_index := 0,
        read_only := ReadOnly.new s.read_only.option,
        prs := { s.prs with progress := prog2 } } := by
  rcases hr : s.rand with _ | ⟨r, rest⟩ <;>
    rcases Decidable.em (s.term = t) with ht | ht <;>
      simp [reset, reset_randomized_election_timeout, hr, ht]

theorem reset_term (s : Raft) (t : Nat) : (reset s t).term = t := by
  obtain ⟨a, b, c, hr⟩ := reset_spec s t
  rw [hr]

theorem become_follower_spec (s : Raft) (t lid : Nat) :
    ∃ ret rand2 prog2, become_follower s t lid =
      { s with
        term := t,
        vote := if s.term = t then s.vote else 0,
        leader_id := lid,
        state := .Follower,
        randomized_election_timeout := ret,
        rand := rand2,
        election_elapsed := 0,
        heartbeat_elapsed := 0,
        lead_transferee := none,
        votes := [],
        pending_conf_index := 0,
        read_only := ReadOnly.new s.read_only.option,
        prs := { s.prs with progress := prog2 } } := by
  obtain ⟨a, b, c, hr⟩ := reset_spec s t
  exact ⟨a, b, c, by unfold become_follower; rw [hr]⟩

theorem become_follower_term (s : Raft) (t lid : Nat) :
    (become_follower s t lid).term = t := by
  obtain ⟨a, b, c, hr⟩ := become_follower_spec s t lid
  rw [hr]

theorem become_follower_state (s : Raft) (t lid : Nat) :
    (become_follower s t lid).state = .Follower := by
  obtain ⟨a, b, c, hr⟩ := become_follower_spec s t lid
  rw [hr]

theorem become_follower_leader_id (s : Raft) (t lid : Nat) :
    (become_follower s t lid).leader_id = lid := by
  obtain ⟨a, b, c, hr⟩ := become_follower_spec s t lid
  rw [hr]

theorem become_candidate_term {s s2 : Raft} (h : become_candidate s = some s2) :
    s2.term = s.term + 1 := by
  unfold become_candidate at h
  split at h
  · exact absurd h (by simp)
  · have h2 := Option.some.inj h
    rw [← h2]
    exact reset_term s (s.term + 1)

theorem become_pre_candidate_spec {s s2 : Raft} (h : become_pre_candidate s = some s2) :
    s2 = { s with state := .PreCandidate, votes := [], leader_id := 0 } := by
  unfold become_pre_candidate at h
  split at h
  · exact absurd h (by simp)
  · exact (Option.some.inj h).symm

theorem maybe_commit_spec (s : Raft) :
    ∃ c, (maybe_commit s).1 = { s with raft_log := { s.raft_log with committed := c } } := by
  unfold maybe_commit RaftLog.maybe_commit
  simp only []
  split
  · exact ⟨_, rfl⟩
  · exact ⟨s.raft_log.committed, rfl⟩

/-- Structural description of `append_entry`: the entries gain the
current term and consecutive indices past the old last index; only the
log (entries and commit cursor) and the progress set change. -/
theorem append_entry_spec {s : Raft} {es : List Entry} {s2 : Raft}
    (h : append_entry s es = some s2) :
    ∃ c prs2, s2 =
      { s with
        raft_log :=
          { s.raft_log with
            entries := s.raft_log.entries ++
              es.enum.map (fun ie =>
                { ie.2 with term := s.term, index := s.raft_log.last_index + 1 + ie.1 }),
            committed := c },
        prs := prs2 } := by
  unfold append_entry at h
  simp only [] at h
  split at h
  · exact absurd h (by simp)
  · next pr hpr =>
    have h2 := Option.some.inj h
    set smid : Raft :=
      { s with
        raft_log := s.raft_log.append
          (es.enum.map (fun ie =>
            { ie.2 with term := s.term, index := s.raft_log.last_index + 1 + ie.1 })),
        prs := s.prs.update s.id (pr.maybe_update ((s.raft_log.append
          (es.enum.map (fun ie =>
            { ie.2 with term := s.term, index := s.raft_log.last_index + 1 + ie.1 }))).last_index)).1 } with hsmid
    obtain ⟨c, hmc⟩ := maybe_commit_spec smid
    refine ⟨c, smid.prs, ?_⟩
    rw [← h2, hmc]
    rfl

theorem append_entry_term {s : Raft} {es : List Entry} {s2 : Raft}
    (h : append_entry s es = some s2) : s2.term = s.term := by
  obtain ⟨c, prs2, rfl⟩ := append_entry_spec h
  rfl

end Raft

namespace Raft

theorem some_pair_fst {α β : Type} {x : α} {y : β} {a : α} {b : β}
    (h : some (x, y) = some (a, b)) : x = a :=
  congrArg Prod.fst (Option.some.inj h)

/-- A generic term-preservation transfer through `foldSome`. -/
theorem foldSome_term {α : Type} {f : Raft → α → Option Raft}
    (hf : ∀ st a s3, f st a = some s3 → s3.term = st.term) :
    ∀ {l : List α} {s s2 : Raft}, foldSome f l s = some s2 → s2.term = s.term := by
  intro l
  induction l with
  | nil =>
    intro s s2 h
    unfold foldSome at h
    rw [Option.some.inj h]
  | cons a as ih =>
    intro s s2 h
    unfold foldSome at h
    split at h
    · exact absurd h (by simp)
    · next s3 heq => rw [ih h, hf s a s3 heq]

theorem register_vote_term (s : Raft) (id : Nat) (v : Bool) :
    (register_vote s id v).term = s.term := by
  unfold register_vote
  split <;> rfl

theorem handle_append_entries_term {s : Raft} {m : Message} {s2 : Raft}
    (h : handle_append_entries s m = some s2) : s2.term = s.term := by
  unfold handle_append_entries at h
  split at h
  · exact send_term h
  · split at h
    · have h2 := send_term h
      exact h2
    · exact send_term h

theorem handle_heartbeat_term {s : Raft} {m : Message} {s2 : Raft}
    (h : handle_heartbeat s m = some s2) : s2.term = s.term := by
  unfold handle_heartbeat at h
  split at h
  · exact absurd h (by simp)
  · have h2 := send_term h
    exact h2

theorem restore_raft_term {s : Raft} {snap : Snapshot} {s2 : Raft} {r : Option Bool}
    (h : restore_raft s snap = some (s2, r)) : s2.term = s.term := by
  unfold restore_raft at h
  simp only [] at h
  split at h
  · split at h
    · exact absurd h (by simp)
    · rw [← some_pair_fst h]
  · split at h
    · rw [← some_pair_fst h]
    · split at h
      · exact absurd h (by simp)
      · split at h <;> split at h <;> rw [← some_pair_fst h]

theorem restore_term {s : Raft} {snap : Snapshot} {s2 : Raft} {r : Bool}
    (h : restore s snap = some (s2, r)) : s2.term = s.term := by
  unfold restore at h
  split at h
  · rw [← some_pair_fst h]
  · split at h
    · exact absurd h (by simp)
    · next s3 b heq =>
      have h2 := restore_raft_term heq
      rw [← some_pair_fst h]
      exact h2
    · next s3 heq =>
      have h2 := restore_raft_term heq
      rw [← some_pair_fst h]
      exact h2

theorem handle_snapshot_term {s : Raft} {m : Message} {s2 : Raft}
    (h : handle_snapshot s m = some s2) : s2.term = s.term := by
  unfold handle_snapshot at h
  split at h
  · exact absurd h (by simp)
  · next s3 heq =>
    have h2 := send_term h
    have h3 := restore_term heq
    rw [h2]
    exact h3
  · next s3 heq =>
    have h2 := send_term h
    have h3 := restore_term heq
    rw [h2]
    exact h3

theorem send_timeout_now_term {s : Raft} {to_ : Nat} {s2 : Raft}
    (h : send_timeout_now s to_ = some s2) : s2.term = s.term := by
  unfold send_timeout_now at h
  exact send_term h

theorem handle_append_response_term {s : Raft} {m : Message} {f : StepFlags}
    {s2 : Raft} {f2 : StepFlags} (h : handle_append_response s m f = some (s2, f2)) :
    s2.term = s.term := by
  unfold handle_append_response at h
  simp only [] at h
  split at h
  · exact absurd h (by simp)
  · split at h
    · split at h
      · rw [← some_pair_fst h]
      · rw [← some_pair_fst h]
    · split at h
      · rw [← some_pair_fst h]
      · split at h
        · exact absurd h (by simp)
        · next s3 heq =>
          have hterm : s3.term = s.term := by
            split at heq
            · exact send_timeout_now_term heq
            · rw [Option.some.inj heq]
          split at h
          · rw [← some_pair_fst h]
            exact hterm
          · split at h
            · rw [← some_pair_fst h]
              exact hterm
            · rw [← some_pair_fst h]
              exact hterm
          · rw [← some_pair_fst h]
            exact hterm

theorem emit_read_states_term {rss : List ReadIndexStatus} {s : Raft} {f : StepFlags}
    {s2 : Raft} {f2 : StepFlags} (h : emit_read_states s f rss = some (s2, f2)) :
    s2.term = s.term := by
  induction rss generalizing s f with
  | nil =>
    unfold emit_read_states at h
    rw [← some_pair_fst h]
  | cons a as ih =>
    unfold emit_read_states at h
    split at h
    · split at h
      · exact absurd h (by simp)
      · have h2 := ih h
        exact h2
    · have h2 := ih h
      exact h2

theorem handle_heartbeat_response_term {s : Raft} {m : Message} {f : StepFlags}
    {s2 : Raft} {f2 : StepFlags} (h : handle_heartbeat_response s m f = some (s2, f2)) :
    s2.term = s.term := by
  unfold handle_heartbeat_response at h
  simp only [] at h
  split at h
  · exact absurd h (by simp)
  · repeat' split at h
    all_goals try (have h2 := emit_read_states_term h
                   exact h2)
    all_goals rw [← some_pair_fst h]

theorem handle_transfer_leader_go_term {s : Raft} {lt : Nat} {s2 : Raft}
    (h : handle_transfer_leader_go s lt = some s2) : s2.term = s.term := by
  unfold handle_transfer_leader_go at h
  split at h
  · rw [Option.some.inj h]
  · simp only [] at h
    split at h
    · exact absurd h (by simp)
    · split at h
      · have h2 := send_timeout_now_term h
        exact h2
      · rw [Option.map_eq_some'] at h
        obtain ⟨⟨s4, pr4⟩, hsa, h2⟩ := h
        have h3 := (send_append_spec hsa).term_keep
        rw [← h2]
        exact h3

theorem handle_transfer_leader_term {s : Raft} {m : Message} {s2 : Raft}
    (h : handle_transfer_leader s m = some s2) : s2.term = s.term := by
  unfold handle_transfer_leader at h
  split at h
  · rw [Option.some.inj h]
  · split at h
    · split at h
      · rw [Option.some.inj h]
      · have h2 := handle_transfer_leader_go_term h
        exact h2
    · have h2 := handle_transfer_leader_go_term h
      exact h2

theorem check_message_with_progress_term {s : Raft} {m : Message}
    {s2 : Raft} {f2 : StepFlags} (h : check_message_with_progress s m = some (s2, f2)) :
    s2.term = s.term := by
  unfold check_message_with_progress at h
  simp only [] at h
  split at h
  · rw [← some_pair_fst h]
  · split at h
    · exact handle_append_response_term h
    · exact handle_heartbeat_response_term h
    · split at h
      · exact absurd h (by simp)
      · split at h <;> rw [← some_pair_fst h]
    · split at h
      · exact absurd h (by simp)
      · rw [← some_pair_fst h]
    · rw [Option.map_eq_some'] at h
      obtain ⟨s4, htl, h2⟩ := h
      have h5 : s4 = s2 := congrArg Prod.fst h2
      have h6 := handle_transfer_leader_term htl
      rw [← h5]
      exact h6
    · rw [← some_pair_fst h]

end Raft

namespace Raft

theorem append_finalize_conf_change_entry_term {s s2 : Raft}
    (h : append_finalize_conf_change_entry s = some s2) : s2.term = s.term := by
  unfold append_finalize_conf_change_entry at h
  simp only [] at h
  split at h
  · exact absurd h (by simp)
  · next s3 hae =>
    rw [(bcast_append_spec h).term_frame]
    exact append_entry_term hae

theorem become_leader_term {s s2 : Raft} (h : become_leader s = some s2) :
    s2.term = s.term := by
  unfold become_leader at h
  split at h
  · exact absurd h (by simp)
  · simp only [] at h
    split at h
    · exact absurd h (by simp)
    · next pr hpr =>
      split at h
      · exact absurd h (by simp)
      · next s3 hae =>
        have h3 := append_entry_term hae
        have h4 : s3.term = s.term := by
          rw [h3]
          exact reset_term s s.term
        unfold become_leader_tail at h
        split at h
        · split at h
          · rw [append_finalize_conf_change_entry_term h]
            exact h4
          · rw [Option.some.inj h] at h4
            exact h4
        · rw [Option.some.inj h] at h4
          exact h4

theorem campaignGo_term_le {d : Nat} {s : Raft} {ct : List Nat} {s2 : Raft}
    (h : campaignGo d s ct = some s2) : s.term ≤ s2.term := by
  induction d generalizing s ct with
  | zero => exact absurd h (by simp [campaignGo])
  | succ d ih =>
    unfold campaignGo at h
    simp only [] at h
    split at h
    · exact absurd h (by simp)
    · next s1 vm tm heq =>
      have htrip : s.term ≤ s1.term := by
        split at heq
        · rw [Option.map_eq_some'] at heq
          obtain ⟨s3, hpre, h2⟩ := heq
          have h4 : s3 = s1 := congrArg Prod.fst h2
          have h6 : s3.term = s.term := by rw [become_pre_candidate_spec hpre]
          rw [← h4, h6]
        · rw [Option.map_eq_some'] at heq
          obtain ⟨s3, hcand, h2⟩ := heq
          have h4 : s3 = s1 := congrArg Prod.fst h2
          have h6 : s3.term = s.term + 1 := become_candidate_term hcand
          rw [← h4, h6]
          omega
      have hreg : (register_vote s1 s1.id true).term = s1.term :=
        register_vote_term s1 s1.id true
      split at h
      · split at h
        · have h2 := ih h
          omega
        · have h2 := become_leader_term h
          omega
      · have h2 := foldSome_term (fun st a s3 h3 => by
          revert h3
          split
          · intro h3
            rw [Option.some.inj h3]
          · intro h3
            exact send_term h3) h
        omega

theorem campaign_term_le {s : Raft} {ct : List Nat} {s2 : Raft}
    (h : campaign s ct = some s2) : s.term ≤ s2.term := by
  unfold campaign at h
  exact campaignGo_term_le h

theorem process_conf_entries_term (s : Raft) (li i : Nat) (es : List Entry) :
    (process_conf_entries s li i es).1.term = s.term := by
  induction es generalizing s i with
  | nil => rfl
  | cons e rest ih =>
    unfold process_conf_entries
    split
    · split
      · simp only []
        exact ih s (i + 1)
      · simp only []
        exact ih { s with pending_conf_index := li + i + 1 } (i + 1)
    · simp only []
      exact ih s (i + 1)

theorem step_leader_propose_term {s : Raft} {m : Message} {s2 : Raft} {e : Option RaftError}
    (h : step_leader_propose s m = some (s2, e)) : s2.term = s.term := by
  unfold step_leader_propose at h
  split at h
  · exact absurd h (by simp)
  · split at h
    · rw [← some_pair_fst h]
    · split at h
      · rw [← some_pair_fst h]
      · simp only [] at h
        split at h
        · exact absurd h (by simp)
        · next s3 hae =>
          rw [Option.map_eq_some'] at h
          obtain ⟨s4, hba, h2⟩ := h
          have h5 : s4 = s2 := congrArg Prod.fst h2
          have h6 := (bcast_append_spec hba).term_frame
          have h7 := append_entry_term hae
          rw [← h5, h6, h7]
          exact process_conf_entries_term s s.raft_log.last_index 0 m.entries

theorem step_leader_read_index_term {s : Raft} {m : Message} {s2 : Raft} {e : Option RaftError}
    (h : step_leader_read_index s m = some (s2, e)) : s2.term = s.term := by
  unfold step_leader_read_index at h
  simp only [] at h
  repeat' split at h
  all_goals try exact Option.noConfusion h
  all_goals try rw [← some_pair_fst h]
  all_goals
    (rw [Option.map_eq_some'] at h
     obtain ⟨s4, hx, h2⟩ := h
     have h5 : s4 = s2 := congrArg Prod.fst h2)
  case _ =>
    have h6 := bcast_heartbeat_ctx_term hx
    rw [← h5]
    exact h6

theorem step_leader_progress_term {s : Raft} {m : Message} {s2 : Raft} {e : Option RaftError}
    (h : step_leader_progress s m = some (s2, e)) : s2.term = s.term := by
  unfold step_leader_progress at h
  split at h
  · exact absurd h (by simp)
  · next s3 f heq =>
    have h3 := check_message_with_progress_term heq
    simp only [] at h
    -- the afterCommit phase
    have haux : ∀ {s4 : Raft} {b : Bool},
        (if f.do_commit then
          if (maybe_commit s3).2 then
            if should_bcast_commit (maybe_commit s3).1 then
              (bcast_append (maybe_commit s3).1).map (fun s5 => (s5, f.send_append))
            else some ((maybe_commit s3).1, f.send_append)
          else some ((maybe_commit s3).1, f.send_append ∨ f.old_paused)
        else some (s3, f.send_append)) = some (s4, b) → s4.term = s3.term := by
      intro s4 b hx
      obtain ⟨c, hmc⟩ := maybe_commit_spec s3
      split at hx
      · split at hx
        · split at hx
          · rw [Option.map_eq_some'] at hx
            obtain ⟨s5, hba, h2⟩ := hx
            have h5 : s5 = s4 := congrArg Prod.fst h2
            have h6 := (bcast_append_spec hba).term_frame
            rw [← h5, h6, hmc]
          · have h5 := some_pair_fst hx
            rw [← h5, hmc]
        · have h5 := some_pair_fst hx
          rw [← h5, hmc]
      · rw [← some_pair_fst hx]
    split at h
    · exact absurd h (by simp)
    · next s4 b hac =>
      have h4 := haux hac
      split at h
      · exact absurd h (by simp)
      · next s5 has =>
        have h5 : s5.term = s4.term := by
          revert has
          split
          · intro has
            split at has
            · exact absurd has (by simp)
            · next pr hpr =>
              rw [Option.map_eq_some'] at has
              obtain ⟨⟨s6, pr6⟩, hsa, h2⟩ := has
              rw [← h2]
              have h6 := (send_append_spec hsa).term_keep
              simp only []
              rw [h6]
          · intro has
            rw [Option.some.inj has]
        rw [Option.map_eq_some'] at h
        obtain ⟨s6, hfold, h2⟩ := h
        have h7 : s6 = s2 := congrArg Prod.fst h2
        have h8 := foldSome_term (fun st a s7 h9 => send_term h9) hfold
        rw [← h7, h8, h5, h4, h3]

theorem step_leader_term {s : Raft} {m : Message} {s2 : Raft} {e : Option RaftError}
    (h : step_leader s m = some (s2, e)) : s2.term = s.term := by
  unfold step_leader at h
  split at h
  · rw [Option.map_eq_some'] at h
    obtain ⟨s4, hb, h2⟩ := h
    have h5 : s4 = s2 := congrArg Prod.fst h2
    have h6 := bcast_heartbeat_term hb
    rw [← h5, h6]
  · simp only [] at h
    split at h
    · have h5 := some_pair_fst h
      have h6 := become_follower_term (check_quorum_active s).1 (check_quorum_active s).1.term 0
      rw [← h5, h6]
      rfl
    · have h5 := some_pair_fst h
      rw [← h5]
      rfl
  · exact step_leader_propose_term h
  · exact step_leader_read_index_term h
  · exact step_leader_progress_term h

end Raft

namespace Raft

theorem stepVoteRequest_term {s : Raft} {m : Message} {s2 : Raft}
    (h : stepVoteRequest s m = some s2) : s2.term = s.term := by
  unfold stepVoteRequest at h
  simp only [] at h
  split at h
  · exact absurd h (by simp)
  · split at h
    · split at h
      · exact absurd h (by simp)
      · next s3 hsend =>
        have h2 := send_term hsend
        split at h
        · have h5 := Option.some.inj h
          rw [← h5]
          exact h2
        · have h5 := Option.some.inj h
          rw [← h5]
          exact h2
    · exact send_term h

theorem stepHup_term_le {s s2 : Raft} (h : stepHup s = some s2) : s.term ≤ s2.term := by
  unfold stepHup at h
  split at h
  · split at h
    · exact absurd h (by simp)
    · split at h
      · rw [Option.some.inj h]
      · split at h
        · exact campaign_term_le h
        · exact campaign_term_le h
  · rw [Option.some.inj h]

theorem step_follower_term_le {s : Raft} {m : Message} {s2 : Raft} {e : Option RaftError}
    (h : step_follower s m = some (s2, e)) : s.term ≤ s2.term := by
  unfold step_follower at h
  split at h
  · split at h
    · rw [← some_pair_fst h]
    · rw [Option.map_eq_some'] at h
      obtain ⟨s4, hsend, h2⟩ := h
      have h5 : s4 = s2 := congrArg Prod.fst h2
      have h6 := send_term hsend
      rw [← h5, h6]
  · rw [Option.map_eq_some'] at h
    obtain ⟨s4, hx, h2⟩ := h
    have h5 : s4 = s2 := congrArg Prod.fst h2
    have h6 := handle_append_entries_term hx
    rw [← h5, h6]
  · rw [Option.map_eq_some'] at h
    obtain ⟨s4, hx, h2⟩ := h
    have h5 : s4 = s2 := congrArg Prod.fst h2
    have h6 := handle_heartbeat_term hx
    rw [← h5, h6]
  · rw [Option.map_eq_some'] at h
    obtain ⟨s4, hx, h2⟩ := h
    have h5 : s4 = s2 := congrArg Prod.fst h2
    have h6 := handle_snapshot_term hx
    rw [← h5, h6]
  · split at h
    · rw [← some_pair_fst h]
    · rw [Option.map_eq_some'] at h
      obtain ⟨s4, hsend, h2⟩ := h
      have h5 : s4 = s2 := congrArg Prod.fst h2
      have h6 := send_term hsend
      rw [← h5, h6]
  · split at h
    · rw [Option.map_eq_some'] at h
      obtain ⟨s4, hx, h2⟩ := h
      have h5 : s4 = s2 := congrArg Prod.fst h2
      have h6 := campaign_term_le hx
      rw [← h5]
      exact h6
    · rw [← some_pair_fst h]
  · split at h
    · rw [← some_pair_fst h]
    · rw [Option.map_eq_some'] at h
      obtain ⟨s4, hsend, h2⟩ := h
      have h5 : s4 = s2 := congrArg Prod.fst h2
      have h6 := send_term hsend
      rw [← h5, h6]
  · split at h
    · rw [← some_pair_fst h]
    · split at h
      · rw [← some_pair_fst h]
      · rw [← some_pair_fst h]
  · rw [← some_pair_fst h]

theorem step_candidate_vote_resp_term {s : Raft} {m : Message} {s2 : Raft}
    {e : Option RaftError} (h : step_candidate_vote_resp s m = some (s2, e)) :
    s.term ≤ s2.term := by
  unfold step_candidate_vote_resp at h
  split at h
  · rw [← some_pair_fst h]
  · simp only [] at h
    split at h
    · split at h
      · rw [Option.map_eq_some'] at h
        obtain ⟨s4, hx, h2⟩ := h
        have h5 : s4 = s2 := congrArg Prod.fst h2
        have h6 := campaign_term_le hx
        rw [register_vote_term] at h6
        rw [← h5]
        exact h6
      · split at h
        · exact absurd h (by simp)
        · next s3 hbl =>
          rw [Option.map_eq_some'] at h
          obtain ⟨s4, hba, h2⟩ := h
          have h5 : s4 = s2 := congrArg Prod.fst h2
          have h6 := (bcast_append_spec hba).term_frame
          have h7 := become_leader_term hbl
          rw [← h5, h6, h7, register_vote_term]
    · have h5 := some_pair_fst h
      rw [← h5, become_follower_term, register_vote_term]
    · rw [← some_pair_fst h, register_vote_term]

theorem step_candidate_term_le {s : Raft} {m : Message} {s2 : Raft} {e : Option RaftError}
    (hm : m.msg_type = .MsgAppend ∨ m.msg_type = .MsgHeartbeat ∨ m.msg_type = .MsgSnapshot →
      s.term ≤ m.term)
    (h : step_candidate s m = some (s2, e)) : s.term ≤ s2.term := by
  unfold step_candidate at h
  split at h
  · rw [← some_pair_fst h]
  · next hty =>
    rw [Option.map_eq_some'] at h
    obtain ⟨s4, hx, h2⟩ := h
    have h5 : s4 = s2 := congrArg Prod.fst h2
    have h6 := handle_append_entries_term hx
    have h7 := become_follower_term s m.term m.from_
    rw [← h5, h6, h7]
    exact hm (Or.inl hty)
  · next hty =>
    rw [Option.map_eq_some'] at h
    obtain ⟨s4, hx, h2⟩ := h
    have h5 : s4 = s2 := congrArg Prod.fst h2
    have h6 := handle_heartbeat_term hx
    have h7 := become_follower_term s m.term m.from_
    rw [← h5, h6, h7]
    exact hm (Or.inr (Or.inl hty))
  · next hty =>
    rw [Option.map_eq_some'] at h
    obtain ⟨s4, hx, h2⟩ := h
    have h5 : s4 = s2 := congrArg Prod.fst h2
    have h6 := handle_snapshot_term hx
    have h7 := become_follower_term s m.term m.from_
    rw [← h5, h6, h7]
    exact hm (Or.inr (Or.inr hty))
  · exact step_candidate_vote_resp_term h
  · exact step_candidate_vote_resp_term h
  · rw [← some_pair_fst h]
  · rw [← some_pair_fst h]

/-- Effect of the term-handling phase on the term: monotone on every
continue-or-return path, and equal to the message term for an Append,
Heartbeat or Snapshot that reaches dispatch with a non-zero term. -/
theorem stepTermPhase_term {s : Raft} {m : Message} {b : Bool} {s2 : Raft}
    (h : stepTermPhase s m = some (b, s2)) :
    s.term ≤ s2.term ∧
      (b = true → m.term ≠ 0 →
        (m.msg_type = .MsgAppend ∨ m.msg_type = .MsgHeartbeat ∨ m.msg_type = .MsgSnapshot) →
        s2.term = m.term) := by
  unfold stepTermPhase at h
  split at h
  · next hz =>
    have h6 : s = s2 := congrArg Prod.snd (Option.some.inj h)
    rw [← h6]
    exact ⟨le_refl _, fun _ hnz _ => absurd hz hnz⟩
  · split at h
    · next hgt =>
      split at h
      · have h6 : s = s2 := congrArg Prod.snd (Option.some.inj h)
        have hb : false = b := congrArg Prod.fst (Option.some.inj h)
        rw [← h6]
        exact ⟨le_refl _, fun htb => absurd (hb.trans htb) (by simp)⟩
      · split at h
        · next hpv =>
          have h6 : s = s2 := congrArg Prod.snd (Option.some.inj h)
          rw [← h6]
          refine ⟨le_refl _, fun _ _ hty => ?_⟩
          rcases hpv with hpv | hpv <;> rcases hty with hty | hty | hty <;> simp_all
        · split at h
          · next hty =>
            have h6 : become_follower s m.term m.from_ = s2 :=
              congrArg Prod.snd (Option.some.inj h)
            have h7 := become_follower_term s m.term m.from_
            rw [← h6, h7]
            exact ⟨by omega, fun _ _ _ => rfl⟩
          · next hty =>
            have h6 : become_follower s m.term 0 = s2 :=
              congrArg Prod.snd (Option.some.inj h)
            have h7 := become_follower_term s m.term 0
            rw [← h6, h7]
            exact ⟨by omega, fun _ _ _ => rfl⟩
    · split at h
      · next hlt =>
        split at h
        · rw [Option.map_eq_some'] at h
          obtain ⟨s4, hsend, h2⟩ := h
          have h5 : s4 = s2 := congrArg Prod.snd h2
          have hb : false = b := congrArg Prod.fst h2
          have h6 := send_term hsend
          rw [← h5, h6]
          exact ⟨le_refl _, fun htb => absurd (hb.trans htb) (by simp)⟩
        · split at h
          · rw [Option.map_eq_some'] at h
            obtain ⟨s4, hsend, h2⟩ := h
            have h5 : s4 = s2 := congrArg Prod.snd h2
            have hb : false = b := congrArg Prod.fst h2
            have h6 := send_term hsend
            rw [← h5, h6]
            exact ⟨le_refl _, fun htb => absurd (hb.trans htb) (by simp)⟩
          · have h6 : s = s2 := congrArg Prod.snd (Option.some.inj h)
            have hb : false = b := congrArg Prod.fst (Option.some.inj h)
            rw [← h6]
            exact ⟨le_refl _, fun htb => absurd (hb.trans htb) (by simp)⟩
      · have h6 : s = s2 := congrArg Prod.snd (Option.some.inj h)
        rw [← h6]
        refine ⟨le_refl _, fun _ _ _ => ?_⟩
        omega

end Raft

namespace Raft

theorem step_term_le {s : Raft} {m : Message} {s2 : Raft} {e : Option RaftError}
    (hm : (m.msg_type = .MsgAppend ∨ m.msg_type = .MsgHeartbeat ∨ m.msg_type = .MsgSnapshot) →
      m.term ≠ 0)
    (h : step s m = some (s2, e)) : s.term ≤ s2.term := by
  unfold step at h
  split at h
  · exact absurd h (by simp)
  · next s3 heq =>
    have h5 := some_pair_fst h
    have h6 := (stepTermPhase_term heq).1
    rw [← h5]
    exact h6
  · next s3 heq =>
    obtain ⟨hle, heqterm⟩ := stepTermPhase_term heq
    split at h
    · rw [Option.map_eq_some'] at h
      obtain ⟨s4, hx, h2⟩ := h
      have h5 : s4 = s2 := congrArg Prod.fst h2
      have h6 := stepHup_term_le hx
      rw [← h5]
      omega
    · rw [Option.map_eq_some'] at h
      obtain ⟨s4, hx, h2⟩ := h
      have h5 : s4 = s2 := congrArg Prod.fst h2
      have h6 := stepVoteRequest_term hx
      rw [← h5]
      omega
    · rw [Option.map_eq_some'] at h
      obtain ⟨s4, hx, h2⟩ := h
      have h5 : s4 = s2 := congrArg Prod.fst h2
      have h6 := stepVoteRequest_term hx
      rw [← h5]
      omega
    · split at h
      · have h7 := step_candidate_term_le
          (fun hty => le_of_eq (heqterm rfl (hm hty) hty)) h
        omega
      · have h7 := step_candidate_term_le
          (fun hty => le_of_eq (heqterm rfl (hm hty) hty)) h
        omega
      · have h7 := step_follower_term_le h
        omega
      · have h7 := step_leader_term h
        omega

theorem tick_election_term_le {s : Raft} {s2 : Raft} {b : Bool}
    (h : tick_election s = some (s2, b)) : s.term ≤ s2.term := by
  unfold tick_election at h
  simp only [] at h
  split at h
  · have h5 := some_pair_fst h
    rw [← h5]
  · split at h
    · exact absurd h (by simp)
    · next s4 e4 heq =>
      have h5 := some_pair_fst h
      have h6 := step_term_le
        (fun hty => by simp [new_message, Message.default] at hty) heq
      rw [← h5]
      exact h6

theorem tick_heartbeat_term_le {s : Raft} {s2 : Raft} {b : Bool}
    (h : tick_heartbeat s = some (s2, b)) : s.term ≤ s2.term := by
  unfold tick_heartbeat at h
  simp only [] at h
  split at h
  · exact absurd h (by simp)
  · next s3 hr3 heq =>
    have h4 : s.term ≤ s3.term := by
      split at heq
      · split at heq
        · exact absurd heq (by simp)
        · next s6 hr6 heq2 =>
          have h7 : s.term ≤ s6.term := by
            split at heq2
            · split at heq2
              · exact absurd heq2 (by simp)
              · next s5 e5 hstep =>
                have h8 := step_term_le
                  (fun hty => by simp [new_message, Message.default] at hty) hstep
                have h9 := some_pair_fst heq2
                rw [← h9]
                exact h8
            · have h9 := some_pair_fst heq2
              rw [← h9]
          split at heq
          · have h9 := some_pair_fst heq
            rw [← h9]
            exact h7
          · have h9 := some_pair_fst heq
            rw [← h9]
            exact h7
      · have h9 := some_pair_fst heq
        rw [← h9]
    split at h
    · have h5 := some_pair_fst h
      rw [← h5]
      exact h4
    · split at h
      · split at h
        · exact absurd h (by simp)
        · next s5 e5 hstep =>
          have h6 := step_term_le
            (fun hty => by simp [new_message, Message.default] at hty) hstep
          have h5 := some_pair_fst h
          rw [← h5]
          have h7 : s3.term ≤ s5.term := h6
          omega
      · have h5 := some_pair_fst h
        rw [← h5]
        exact h4

theorem tick_term_le {s : Raft} {s2 : Raft} {b : Bool}
    (h : tick s = some (s2, b)) : s.term ≤ s2.term := by
  unfold tick at h
  split at h
  · exact tick_heartbeat_term_le h
  · exact tick_election_term_le h

/-- Term monotonicity read off an optional step result. -/
def termMonoStep (t : Nat) : Option (Raft × Option RaftError) → Prop
  | some p => t ≤ p.1.term
  | none => True

/-- Term monotonicity read off an optional tick result. -/
def termMonoTick (t : Nat) : Option (Raft × Bool) → Prop
  | some p => t ≤ p.1.term
  | none => True

end Raft

namespace Raft

/-!  Concrete fixtures used by witnesses and counterexamples. -/

/-- A fresh empty log. -/
def testLog : RaftLog := ⟨0, 0, [], 0, 0⟩

/-- A progress set with the given voter ids, all progress fresh. -/
def testPrs (ids : List Nat) : ProgressSet :=
  ⟨ids.map (fun i => (i, Progress.new 1 8)), ⟨ids, []⟩, none⟩

/-- A freshly booted follower with the given id and voter set. -/
def testNode (id : Nat) (ids : List Nat) : Raft :=
  { id := id, term := 0, vote := 0, read_states := [], raft_log := testLog,
    max_inflight := 8, prs := testPrs ids, state := .Follower, is_learner := false,
    votes := [], msgs := [], leader_id := 0, lead_transferee := none,
    pending_conf_index := 0, pending_membership_change := none,
    read_only := ReadOnly.new .Safe, election_elapsed := 0, heartbeat_elapsed := 0,
    check_quorum := false, pre_vote := false, skip_bcast_commit := false,
    batch_append := false, heartbeat_timeout := 1, election_timeout := 10,
    randomized_election_timeout := 10, min_election_timeout := 10,
    max_election_timeout := 20, store_snapshot := none, rand := [] }

def c1_state : Raft :=
  { testNode 1 [1, 2] with state := .Candidate, term := 1, vote := 1 }

def c1_msg : Message := { Message.default with msg_type := .MsgAppend, from_ := 2 }

/-- C1, counterexample: the claim quantifies over every message, but a
candidate at term 1 that steps an MsgAppend carrying term 0 (the local
marker, skipping term handling) becomes a follower at term 0 via
step_candidate's become_follower(m.term, m.from): the term decreases.
The release build has no check against this; the debug_assert in
step_candidate compiles out. -/
theorem c1_term_decrease_counterexample :
    c1_state.term = 1 ∧
      (step c1_state c1_msg).map (fun p => p.1.term) = some 0 := by
  exact ⟨rfl, rfl⟩

/-- C1 (amended): after any single step of a message that carries a
non-zero term whenever its type is Append, Heartbeat or Snapshot (those
types are never local messages), and after any single tick, the node's
term is at least its previous value. -/
theorem c1_term_monotonic (s : Raft) (m : Message)
    (hm : (m.msg_type = .MsgAppend ∨ m.msg_type = .MsgHeartbeat ∨ m.msg_type = .MsgSnapshot) →
      m.term ≠ 0) :
    termMonoStep s.term (step s m) ∧ termMonoTick s.term (tick s) := by
  constructor
  · rcases hstep : step s m with _ | ⟨s2, e⟩
    · exact trivial
    · exact step_term_le hm hstep
  · rcases htick : tick s with _ | ⟨s2, b2⟩
    · exact trivial
    · exact tick_term_le htick

def c1_wit_msg : Message :=
  { Message.default with msg_type := .MsgHeartbeat, from_ := 2, term := 1 }

/-- Witness for C1: the amended theorem applied to a fresh two-voter
follower stepping a term-1 heartbeat. -/
theorem c1_term_monotonic_witness :
    termMonoStep (testNode 1 [1, 2]).term (step (testNode 1 [1, 2]) c1_wit_msg) ∧
      termMonoTick (testNode 1 [1, 2]).term (tick (testNode 1 [1, 2])) :=
  c1_term_monotonic (testNode 1 [1, 2]) c1_wit_msg (by decide)

/-- C3: for a message with a term above the local one whose type is not
RequestPreVote, that is not a non-rejecting RequestPreVoteResponse, and
that is not swallowed by the leader-lease protection, the term-handling
phase of step turns the node into a follower at the message term, with
leader_id the sender for Append, Heartbeat and Snapshot and 0 for every
other type, and proceeds to dispatch. -/
theorem c3_term_bump_to_follower (s : Raft) (m : Message)
    (hgt : s.term < m.term)
    (h1 : m.msg_type ≠ .MsgRequestPreVote)
    (h2 : ¬ (m.msg_type = .MsgRequestPreVoteResponse ∧ m.reject = false))
    (h3 : ¬ (m.msg_type = .MsgRequestVote ∧ m.context ≠ CAMPAIGN_TRANSFER ∧
        (s.check_quorum = true ∧ s.leader_id ≠ 0 ∧ s.election_elapsed < s.election_timeout))) :
    ∃ s2, stepTermPhase s m = some (true, s2) ∧
      s2.state = .Follower ∧ s2.term = m.term ∧
      s2.leader_id =
        (if m.msg_type = .MsgAppend ∨ m.msg_type = .MsgHeartbeat ∨ m.msg_type = .MsgSnapshot
          then m.from_ else 0) := by
  have hz : ¬ m.term = 0 := by omega
  unfold stepTermPhase
  rw [if_neg hz, if_pos hgt]
  have hlease : ¬ ((m.msg_type = .MsgRequestVote ∨ m.msg_type = .MsgRequestPreVote) ∧
      m.context ≠ CAMPAIGN_TRANSFER ∧
      (s.check_quorum = true ∧ s.leader_id ≠ 0 ∧ s.election_elapsed < s.election_timeout)) := by
    rintro ⟨hv | hv, hrest⟩
    · exact h3 ⟨hv, hrest⟩
    · exact h1 hv
  rw [if_neg hlease]
  have hpre : ¬ (m.msg_type = .MsgRequestPreVote ∨
      (m.msg_type = .MsgRequestPreVoteResponse ∧ m.reject = false)) := by
    rintro (hv | hv)
    · exact h1 hv
    · exact h2 hv
  rw [if_neg hpre]
  split
  · next hty =>
    exact ⟨become_follower s m.term m.from_, rfl, become_follower_state s m.term m.from_,
      become_follower_term s m.term m.from_, become_follower_leader_id s m.term m.from_⟩
  · next hty =>
    exact ⟨become_follower s m.term 0, rfl, become_follower_state s m.term 0,
      become_follower_term s m.term 0, become_follower_leader_id s m.term 0⟩

def c3_wit_msg : Message :=
  { Message.default with msg_type := .MsgHeartbeat, from_ := 2, term := 5 }

/-- Witness for C3: a term-5 heartbeat at a fresh term-0 follower. -/
theorem c3_term_bump_to_follower_witness :
    ∃ s2, stepTermPhase (testNode 1 [1, 2]) c3_wit_msg = some (true, s2) ∧
      s2.state = .Follower ∧ s2.term = c3_wit_msg.term ∧
      s2.leader_id =
        (if c3_wit_msg.msg_type = .MsgAppend ∨ c3_wit_msg.msg_type = .MsgHeartbeat ∨
            c3_wit_msg.msg_type = .MsgSnapshot
          then c3_wit_msg.from_ else 0) :=
  c3_term_bump_to_follower (testNode 1 [1, 2]) c3_wit_msg (by decide) (by decide)
    (by decide) (by decide)

end Raft

namespace Raft

/-- C10: an MsgAppend whose index is strictly below the local commit
index is answered with exactly one non-rejecting AppendResponse carrying
the commit index, and the state changes in nothing but that outbound
message (in particular the log entries, last index and commit index are
untouched). -/
theorem c10_append_below_commit (s : Raft) (m : Message)
    (hidx : m.index < s.raft_log.committed) :
    ∃ r, handle_append_entries s m = some { s with msgs := s.msgs ++ [r] } ∧
      r.msg_type = .MsgAppendResponse ∧ r.to_ = m.from_ ∧
      r.index = s.raft_log.committed ∧ r.reject = false := by
  refine ⟨{ Message.default with
            msg_type := .MsgAppendResponse, to_ := m.from_, from_ := s.id,
            term := s.term, index := s.raft_log.committed }, ?_, rfl, rfl, rfl, rfl⟩
  unfold handle_append_entries
  rw [if_pos hidx]
  rfl

def c10_state : Raft :=
  { testNode 1 [1, 2] with
    term := 3,
    raft_log := ⟨0, 0, [⟨.EntryNormal, 1, 1, []⟩, ⟨.EntryNormal, 2, 2, []⟩], 2, 1⟩ }

def c10_msg : Message :=
  { Message.default with
    msg_type := .MsgAppend, from_ := 2, term := 3, index := 1, log_term := 1 }

/-- Witness for C10: an append at index 1 against a log committed to 2. -/
theorem c10_append_below_commit_witness :
    ∃ r, handle_append_entries c10_state c10_msg =
        some { c10_state with msgs := c10_state.msgs ++ [r] } ∧
      r.msg_type = .MsgAppendResponse ∧ r.to_ = c10_msg.from_ ∧
      r.index = c10_state.raft_log.committed ∧ r.reject = false :=
  c10_append_below_commit c10_state c10_msg (by decide)

def c5_state : Raft :=
  { testNode 1 [1, 2] with
    term := 3,
    raft_log := ⟨0, 0, [⟨.EntryNormal, 1, 1, []⟩, ⟨.EntryNormal, 2, 2, []⟩], 2, 1⟩ }

def c5_snap : Snapshot := ⟨⟨2, 9, ⟨[1, 2], []⟩, ⟨[], []⟩, 0⟩⟩

def c5_msg : Message :=
  { Message.default with
    msg_type := .MsgSnapshot, from_ := 2, term := 3, snapshot := c5_snap }

/-- C5, counterexample: the code guards with a strict comparison
(snapshot index < committed).  A snapshot whose index equals the commit
index but whose term disagrees with the log's entry at that index takes
the full-restore path: the log entries are replaced, so "keep local log"
fails even though the snapshot index is ≤ commit. -/
theorem c5_counterexample :
    c5_msg.snapshot.metadata.index ≤ c5_state.raft_log.committed ∧
      (handle_snapshot c5_state c5_msg).map (fun s2 => s2.raft_log.entries) = some [] ∧
      c5_state.raft_log.entries ≠ [] := by
  exact ⟨by decide, by decide, by decide⟩

/-- C5 (amended): a snapshot whose metadata index is strictly below the
commit index, or equal to it with a term matching the log entry at that
index, is acknowledged with exactly one AppendResponse at the commit
index, and the log (entries, last index, commit index) is unchanged. -/
theorem c5_snapshot_at_or_below_commit (s : Raft) (m : Message)
    (h : m.snapshot.metadata.index < s.raft_log.committed ∨
      (m.snapshot.metadata.index = s.raft_log.committed ∧
        s.raft_log.term m.snapshot.metadata.index = some m.snapshot.metadata.term)) :
    ∃ r, handle_snapshot s m = some { s with msgs := s.msgs ++ [r] } ∧
      r.msg_type = .MsgAppendResponse ∧ r.to_ = m.from_ ∧
      r.index = s.raft_log.committed ∧ r.reject = false := by
  have hres : restore s m.snapshot = some (s, false) := by
    unfold restore
    rcases h with hlt | ⟨heq, hterm⟩
    · rw [if_pos hlt]
    · rw [if_neg (by omega : ¬ m.snapshot.metadata.index < s.raft_log.committed)]
      have hraft : restore_raft s m.snapshot = some (s, some false) := by
        unfold restore_raft
        have hmt : s.raft_log.match_term m.snapshot.metadata.index
            m.snapshot.metadata.term = true := by
          unfold RaftLog.match_term
          rw [hterm]
          simp
        rw [if_pos hmt]
        unfold RaftLog.commit_to
        rw [if_pos (by omega : m.snapshot.metadata.index ≤ s.raft_log.committed)]
      rw [hraft]
  refine ⟨{ Message.default with
            msg_type := .MsgAppendResponse, to_ := m.from_, from_ := s.id,
            term := s.term, index := s.raft_log.committed }, ?_, rfl, rfl, rfl, rfl⟩
  unfold handle_snapshot
  rw [hres]
  rfl

def c5_wit_snap : Snapshot := ⟨⟨1, 1, ⟨[1, 2], []⟩, ⟨[], []⟩, 0⟩⟩

def c5_wit_msg : Message :=
  { Message.default with
    msg_type := .MsgSnapshot, from_ := 2, term := 3, snapshot := c5_wit_snap }

/-- Witness for C5: an index-1 snapshot against a log committed to 2. -/
theorem c5_snapshot_at_or_below_commit_witness :
    ∃ r, handle_snapshot c5_state c5_wit_msg =
        some { c5_state with msgs := c5_state.msgs ++ [r] } ∧
      r.msg_type = .MsgAppendResponse ∧ r.to_ = c5_wit_msg.from_ ∧
      r.index = c5_state.raft_log.committed ∧ r.reject = false :=
  c5_snapshot_at_or_below_commit c5_state c5_wit_msg (Or.inl (by decide))

end Raft

namespace Raft

/-- C2: after term handling, a RequestVote or RequestPreVote is granted
(a non-rejecting response is emitted) exactly when (vote = m.from, or
vote and leader unset, or a PreVote for a strictly higher term) and the
candidate log is up to date; a granted response carries the message term
(not the local term); a granted RequestVote also records the vote and
resets the election timer. -/
theorem c2_vote_request_grant (s : Raft) (m : Message)
    (hty : m.msg_type = .MsgRequestVote ∨ m.msg_type = .MsgRequestPreVote)
    (hterm : m.term ≠ 0) :
    (((s.vote = m.from_ ∨ (s.vote = 0 ∧ s.leader_id = 0) ∨
          (m.msg_type = .MsgRequestPreVote ∧ s.term < m.term)) ∧
        s.raft_log.is_up_to_date m.index m.log_term = true) →
      ∃ s2 r, stepVoteRequest s m = some s2 ∧ s2.msgs = s.msgs ++ [r] ∧
        r.reject = false ∧ r.term = m.term ∧
        (m.msg_type = .MsgRequestVote → s2.vote = m.from_ ∧ s2.election_elapsed = 0)) ∧
    (¬ ((s.vote = m.from_ ∨ (s.vote = 0 ∧ s.leader_id = 0) ∨
          (m.msg_type = .MsgRequestPreVote ∧ s.term < m.term)) ∧
        s.raft_log.is_up_to_date m.index m.log_term = true) →
      ∀ s2, stepVoteRequest s m = some s2 →
        ∃ r, s2.msgs = s.msgs ++ [r] ∧ r.reject = true) := by
  constructor
  · intro hgrant
    rcases hty with h | h
    · -- RequestVote
      have hresp : vote_resp_msg_type m.msg_type = some .MsgRequestVoteResponse := by
        rw [h]
        rfl
      have hsend : send s { new_message m.from_ .MsgRequestVoteResponse none with
            reject := false, term := m.term } =
          some { s with msgs := s.msgs ++
            [{ new_message m.from_ .MsgRequestVoteResponse none with
               from_ := s.id, reject := false, term := m.term }] } := by
        simp [send, new_message, Message.default, hterm]
      refine ⟨{ s with
          msgs := s.msgs ++
            [{ new_message m.from_ .MsgRequestVoteResponse none with
               from_ := s.id, reject := false, term := m.term }],
          election_elapsed := 0, vote := m.from_ },
        { new_message m.from_ .MsgRequestVoteResponse none with
          from_ := s.id, reject := false, term := m.term },
        ?_, rfl, rfl, rfl, fun _ => ⟨rfl, rfl⟩⟩
      unfold stepVoteRequest
      simp only [hresp]
      rw [if_pos hgrant, hsend]
      simp only []
      rw [if_pos h]
    · -- RequestPreVote
      have hresp : vote_resp_msg_type m.msg_type = some .MsgRequestPreVoteResponse := by
        rw [h]
        rfl
      have hsend : send s { new_message m.from_ .MsgRequestPreVoteResponse none with
            reject := false, term := m.term } =
          some { s with msgs := s.msgs ++
            [{ new_message m.from_ .MsgRequestPreVoteResponse none with
               from_ := s.id, reject := false, term := m.term }] } := by
        simp [send, new_message, Message.default, hterm]
      refine ⟨{ s with
          msgs := s.msgs ++
            [{ new_message m.from_ .MsgRequestPreVoteResponse none with
               from_ := s.id, reject := false, term := m.term }] },
        { new_message m.from_ .MsgRequestPreVoteResponse none with
          from_ := s.id, reject := false, term := m.term },
        ?_, rfl, rfl, rfl, fun hv => absurd (h ▸ hv) (by simp)⟩
      unfold stepVoteRequest
      simp only [hresp]
      rw [if_pos hgrant, hsend]
      simp only []
      rw [if_neg (fun hv : m.msg_type = .MsgRequestVote => by rw [h] at hv; cases hv)]
  · intro hng s2 hstep
    unfold stepVoteRequest at hstep
    simp only [] at hstep
    split at hstep
    · exact absurd hstep (by simp)
    · next resp hresp =>
      rw [if_neg hng] at hstep
      unfold send at hstep
      simp only [] at hstep
      split at hstep
      · split at hstep
        · exact absurd hstep (by simp)
        · have h5 := Option.some.inj hstep
          exact ⟨_, by rw [← h5], rfl⟩
      · next hc =>
        exfalso
        rcases hty with h | h <;>
          (rw [h] at hresp
           simp only [vote_resp_msg_type] at hresp
           rw [← Option.some.inj hresp] at hc
           simp [new_message, Message.default] at hc)

def c2_wit_msg : Message :=
  { Message.default with
    msg_type := .MsgRequestVote, from_ := 2, term := 1, index := 0, log_term := 1 }

/-- Witness for C2: a fresh node grants a RequestVote from peer 2 for
term 1. -/
theorem c2_vote_request_grant_witness :
    ∃ s2 r, stepVoteRequest (testNode 1 [1, 2]) c2_wit_msg = some s2 ∧
      s2.msgs = (testNode 1 [1, 2]).msgs ++ [r] ∧
      r.reject = false ∧ r.term = c2_wit_msg.term ∧
      (c2_wit_msg.msg_type = .MsgRequestVote →
        s2.vote = c2_wit_msg.from_ ∧ s2.election_elapsed = 0) :=
  (c2_vote_request_grant (testNode 1 [1, 2]) c2_wit_msg (Or.inl rfl) (by decide)).1
    (by constructor
        · exact Or.inr (Or.inl ⟨rfl, rfl⟩)
        · decide)

end Raft

namespace Raft

theorem lookup_map_some (l : List (Nat × Progress)) (f : Nat × Progress → Progress) (id : Nat)
    (h : (l.lookup id).isSome = true) :
    ∃ v, (l.map (fun q => (q.1, f q))).lookup id = some v := by
  induction l with
  | nil => simp [List.lookup] at h
  | cons p t ih =>
    obtain ⟨k, v⟩ := p
    cases hb : id == k
    · simp only [List.map_cons, List.lookup, hb] at h ⊢
      exact ih h
    · exact ⟨f (k, v), by simp [List.lookup, hb]⟩

theorem lookup_update_self (l : List (Nat × Progress)) (id : Nat) (pr : Progress)
    (h : (l.lookup id).isSome = true) :
    (l.map (fun p => if p.1 = id then (id, pr) else p)).lookup id = some pr := by
  induction l with
  | nil => simp [List.lookup] at h
  | cons p t ih =>
    obtain ⟨k, v⟩ := p
    by_cases hk : k = id
    · subst hk
      simp only [List.map_cons]
      simp only [eq_self_iff_true, if_true]
      simp [List.lookup]
    · have hb : (id == k) = false := by
        simp [Ne.symm hk]
      simp only [List.lookup, hb] at h
      simp only [List.map_cons, hk, if_false, ite_false]
      simp only [List.lookup, hb]
      exact ih h

/-- Structural description of `reset` with the progress rebuild spelled
out: every peer is reset to probe from last index + 1; the local entry
additionally keeps matched at the last index. -/
theorem reset_spec_prs (s : Raft) (t : Nat) :
    ∃ ret rand2, reset s t =
      { s with
        term := t,
        vote := if s.term = t then s.vote else 0,
        leader_id := 0,
        randomized_election_timeout := ret,
        rand := rand2,
        election_elapsed := 0,
        heartbeat_elapsed := 0,
        lead_transferee := none,
        votes := [],
        pending_conf_index := 0,
        read_only := ReadOnly.new s.read_only.option,
        prs := { s.prs with progress := s.prs.progress.map (fun p =>
          (p.1, if p.1 = s.id then
            { p.2.reset (s.raft_log.last_index + 1) with
              matched := s.raft_log.last_index }
            else p.2.reset (s.raft_log.last_index + 1))) } } := by
  rcases hr : s.rand with _ | ⟨r, rest⟩ <;>
    rcases Decidable.em (s.term = t) with ht | ht <;>
      simp [reset, reset_randomized_election_timeout, hr, ht]

end Raft

namespace Raft

theorem maybe_commit_1_term (x : Raft) : ((maybe_commit x).1).term = x.term := by
  obtain ⟨c, h⟩ := maybe_commit_spec x
  rw [h]

theorem maybe_commit_1_leader_id (x : Raft) :
    ((maybe_commit x).1).leader_id = x.leader_id := by
  obtain ⟨c, h⟩ := maybe_commit_spec x
  rw [h]

theorem maybe_commit_1_state (x : Raft) : ((maybe_commit x).1).state = x.state := by
  obtain ⟨c, h⟩ := maybe_commit_spec x
  rw [h]

theorem maybe_commit_1_pci (x : Raft) :
    ((maybe_commit x).1).pending_conf_index = x.pending_conf_index := by
  obtain ⟨c, h⟩ := maybe_commit_spec x
  rw [h]

theorem maybe_commit_1_pmc (x : Raft) :
    ((maybe_commit x).1).pending_membership_change = x.pending_membership_change := by
  obtain ⟨c, h⟩ := maybe_commit_spec x
  rw [h]

theorem maybe_commit_1_entries (x : Raft) :
    ((maybe_commit x).1).raft_log.entries = x.raft_log.entries := by
  obtain ⟨c, h⟩ := maybe_commit_spec x
  rw [h]

/-- `append_finalize_conf_change_entry` appends exactly one ConfChange
entry carrying an encoded FinalizeMembershipChange, stamped with the
current term at the next index. -/
theorem append_finalize_entries {x s3 : Raft}
    (h : append_finalize_conf_change_entry x = some s3) :
    s3.raft_log.entries = x.raft_log.entries ++
      [{ Entry.default with
         entry_type := .EntryConfChange,
         data := encodeConfChange
           { change_type := .FinalizeMembershipChange, configuration := none,
             start_index := 0 },
         term := x.term,
         index := x.raft_log.last_index + 1 }] := by
  unfold append_finalize_conf_change_entry at h
  simp only [] at h
  split at h
  · exact Option.noConfusion h
  · next s2 heq =>
    obtain ⟨c, prs2, hs2⟩ := append_entry_spec heq
    have hso := bcast_append_spec h
    have hlog := hso.raft_log
    rw [hlog, hs2]
    simp [List.enum, List.enumFrom, Entry.default]

end Raft

namespace Raft

/-- C4: on a non-follower with a registered own progress, become_leader
keeps the current term, sets leader_id to the own id, enters the Leader
state, sets pending_conf_index to the pre-append last index, appends
exactly one empty Normal entry stamped with the current term at the next
index, and then (per become_leader_tail) additionally appends one
FinalizeMembershipChange entry exactly when a pending membership change
exists whose start index is at or below the commit index. -/
theorem c4_become_leader (s : Raft) (hs : ¬ s.state = .Follower)
    (hpr : (s.prs.get s.id).isSome = true) :
    ∃ sm, become_leader s = become_leader_tail sm ∧
      sm.term = s.term ∧ sm.leader_id = s.id ∧ sm.state = .Leader ∧
      sm.pending_conf_index = s.raft_log.last_index ∧
      sm.pending_membership_change = s.pending_membership_change ∧
      sm.raft_log.entries = s.raft_log.entries ++
        [{ Entry.default with term := s.term, index := s.raft_log.last_index + 1 }] ∧
      (∀ s3, append_finalize_conf_change_entry sm = some s3 →
        s3.raft_log.entries = sm.raft_log.entries ++
          [{ Entry.default with
             entry_type := .EntryConfChange,
             data := encodeConfChange
               { change_type := .FinalizeMembershipChange, configuration := none,
                 start_index := 0 },
             term := sm.term,
             index := sm.raft_log.last_index + 1 }]) := by
  obtain ⟨ret, rand2, hr⟩ := reset_spec_prs s s.term
  obtain ⟨pr2, hpr2⟩ := lookup_map_some s.prs.progress
      (fun p => if p.1 = s.id then
          { p.2.reset (s.raft_log.last_index + 1) with
            matched := s.raft_log.last_index }
        else p.2.reset (s.raft_log.last_index + 1)) s.id hpr
  have hups := lookup_update_self
      (s.prs.progress.map (fun p =>
        (p.1, if p.1 = s.id then
            { p.2.reset (s.raft_log.last_index + 1) with
              matched := s.raft_log.last_index }
          else p.2.reset (s.raft_log.last_index + 1))))
      s.id pr2.become_replicate (by rw [hpr2]; rfl)
  apply Exists.intro
  refine ⟨?heq, ?ht, ?hl, ?hst, ?hp, ?hm, ?he, ?hf⟩
  case heq =>
    unfold become_leader
    rw [if_neg hs]
    simp only []
    rw [hr]
    simp only [ProgressSet.get]
    rw [hpr2]
    simp only []
    unfold append_entry
    simp only [ProgressSet.get, ProgressSet.update]
    rw [hups]
  case ht =>
    rw [maybe_commit_1_term]
  case hl =>
    rw [maybe_commit_1_leader_id]
  case hst =>
    rw [maybe_commit_1_state]
  case hp =>
    rw [maybe_commit_1_pci]
  case hm =>
    rw [maybe_commit_1_pmc]
  case he =>
    rw [maybe_commit_1_entries]
    simp [RaftLog.append, List.enum, List.enumFrom, Entry.default]
  case hf =>
    intro s3 h3
    exact append_finalize_entries h3

end Raft

namespace Raft

def c4_state : Raft := { testNode 1 [1, 2] with state := .Candidate }

/-- Witness for C4: a two-voter candidate becoming leader. -/
theorem c4_become_leader_witness :
    ∃ sm, become_leader c4_state = become_leader_tail sm ∧
      sm.term = c4_state.term ∧ sm.leader_id = c4_state.id ∧ sm.state = .Leader ∧
      sm.pending_conf_index = c4_state.raft_log.last_index ∧
      sm.pending_membership_change = c4_state.pending_membership_change ∧
      sm.raft_log.entries = c4_state.raft_log.entries ++
        [{ Entry.default with
           term := c4_state.term, index := c4_state.raft_log.last_index + 1 }] ∧
      (∀ s3, append_finalize_conf_change_entry sm = some s3 →
        s3.raft_log.entries = sm.raft_log.entries ++
          [{ Entry.default with
             entry_type := .EntryConfChange,
             data := encodeConfChange
               { change_type := .FinalizeMembershipChange, configuration := none,
                 start_index := 0 },
             term := sm.term,
             index := sm.raft_log.last_index + 1 }]) :=
  c4_become_leader c4_state (by decide) (by decide)

end Raft

namespace Raft

/-- C6: a MsgPropose with non-empty entries stepped on a leader yields
ProposalDropped exactly when the leader is not in the voter set or a
leader transfer is in flight, and a dropped proposal leaves the state
unchanged; when the condition holds the call returns exactly
(s, ProposalDropped). -/
theorem c6_propose_dropped (s : Raft) (m : Message)
    (hty : m.msg_type = .MsgPropose) (hne : m.entries ≠ []) :
    (∀ out, step_leader s m = some out →
      ((out.2 = some .ProposalDropped) ↔
        (¬ s.id ∈ s.prs.voter_ids ∨ s.lead_transferee.isSome = true)) ∧
      (out.2 = some .ProposalDropped → out.1 = s)) ∧
    ((¬ s.id ∈ s.prs.voter_ids ∨ s.lead_transferee.isSome = true) →
      step_leader s m = some (s, some .ProposalDropped)) := by
  have hred : step_leader s m = step_leader_propose s m := by
    unfold step_leader
    rw [hty]
  have hie : ¬ (m.entries.isEmpty = true) := by
    cases hm : m.entries
    · exact absurd hm hne
    · simp [List.isEmpty]
  constructor
  · intro out hout
    rw [hred] at hout
    unfold step_leader_propose at hout
    rw [if_neg hie] at hout
    rcases Decidable.em (s.id ∈ s.prs.voter_ids) with hv | hv
    · rw [if_neg (fun hc => hc hv)] at hout
      rcases Decidable.em (s.lead_transferee.isSome = true) with hl | hl
      · rw [if_pos hl] at hout
        have h2 := Option.some.inj hout
        rw [← h2]
        exact ⟨⟨fun _ => Or.inr hl, fun _ => rfl⟩, fun _ => rfl⟩
      · rw [if_neg hl] at hout
        simp only [] at hout
        split at hout
        · exact Option.noConfusion hout
        · next s2 hae =>
          rw [Option.map_eq_some'] at hout
          obtain ⟨s3, hb, h2⟩ := hout
          rw [← h2]
          constructor
          · constructor
            · intro hc
              exact Option.noConfusion hc
            · intro hc
              rcases hc with hc | hc
              · exact absurd hv hc
              · exact absurd hc hl
          · intro hc
            exact Option.noConfusion hc
    · rw [if_pos hv] at hout
      have h2 := Option.some.inj hout
      rw [← h2]
      exact ⟨⟨fun _ => Or.inl hv, fun _ => rfl⟩, fun _ => rfl⟩
  · intro hc
    rw [hred]
    unfold step_leader_propose
    rw [if_neg hie]
    rcases Decidable.em (s.id ∈ s.prs.voter_ids) with hv | hv
    · rcases hc with hc | hc
      · exact absurd hv hc
      · rw [if_neg (fun h => h hv), if_pos hc]
    · rw [if_pos hv]

def c6_state : Raft :=
  { testNode 1 [1, 2] with state := .Leader, lead_transferee := some 2 }

def c6_msg : Message :=
  { Message.default with msg_type := .MsgPropose, entries := [Entry.default] }

/-- Witness for C6: a leader with a transfer in flight drops the
proposal unchanged. -/
theorem c6_propose_dropped_witness :
    (∀ out, step_leader c6_state c6_msg = some out →
      ((out.2 = some .ProposalDropped) ↔
        (¬ c6_state.id ∈ c6_state.prs.voter_ids ∨
          c6_state.lead_transferee.isSome = true)) ∧
      (out.2 = some .ProposalDropped → out.1 = c6_state)) ∧
    ((¬ c6_state.id ∈ c6_state.prs.voter_ids ∨
        c6_state.lead_transferee.isSome = true) →
      step_leader c6_state c6_msg = some (c6_state, some .ProposalDropped)) :=
  c6_propose_dropped c6_state c6_msg rfl (by decide)

end Raft

namespace Raft

/-- C7: a MsgReadIndex stepped on a leader is dropped with no state
change when the term of the entry at the commit index is not the
current term; when it is the current term and the leader alone forms a
quorum, a ReadState with the commit index and the request context is
emitted directly, with no other state change and no heartbeat round. -/
theorem c7_read_index (s : Raft) (m : Message)
    (hty : m.msg_type = .MsgReadIndex) :
    ((s.raft_log.term s.raft_log.committed).getD 0 ≠ s.term →
      step_leader s m = some (s, none)) ∧
    ((s.raft_log.term s.raft_log.committed).getD 0 = s.term →
      s.prs.has_quorum [s.id] = true →
      ∀ e0 rest, m.entries = e0 :: rest →
        step_leader s m =
          some ({ s with
            read_states := s.read_states ++
              [⟨s.raft_log.committed, e0.data⟩] }, none)) := by
  have hred : step_leader s m = step_leader_read_index s m := by
    unfold step_leader
    rw [hty]
  constructor
  · intro hneq
    rw [hred]
    unfold step_leader_read_index
    rw [if_pos hneq]
  · intro heq hq e0 rest hm
    rw [hred]
    unfold step_leader_read_index
    rw [if_neg (fun hc => hc heq), if_neg (fun hc => hc hq), hm]
    rfl

def c7_state : Raft := { testNode 1 [1] with state := .Leader }

def c7_msg : Message :=
  { Message.default with
    msg_type := .MsgReadIndex,
    entries := [{ Entry.default with data := [7] }] }

/-- Witness for C7: a single-voter leader answers a read-index request
directly with a ReadState at its commit index. -/
theorem c7_read_index_witness :
    step_leader c7_state c7_msg =
      some ({ c7_state with
        read_states := c7_state.read_states ++
          [⟨c7_state.raft_log.committed, [7]⟩] }, none) :=
  (c7_read_index c7_state c7_msg rfl).2 (by decide) (by decide)
    { Entry.default with data := [7] } [] (by rfl)

end Raft

namespace Raft

/-- For a vote-type message with a non-zero term, `send` appends exactly
the sender-stamped message and changes nothing else. -/
theorem send_vote_eq (s : Raft) (m : Message)
    (hv : m.msg_type = .MsgRequestVote ∨ m.msg_type = .MsgRequestPreVote)
    (ht : ¬ m.term = 0) :
    send s m = some { s with msgs := s.msgs ++ [{ m with from_ := s.id }] } := by
  unfold send
  simp only []
  rw [if_pos (hv.elim (fun h => Or.inl h) (fun h => Or.inr (Or.inl h))), if_neg ht]

/-- The vote-solicitation loop of `campaign`: it always succeeds, keeps
term and vote, and only appends RequestPreVote messages carrying the
given term. -/
theorem campaign_prevote_fold (tm : Nat) (htm : ¬ tm = 0) (ids : List Nat) :
    ∀ st : Raft, ∃ s2, foldSome
        (fun st2 id =>
          if id = st2.id then some st2
          else
            send st2 { new_message id .MsgRequestPreVote none with
                       term := tm,
                       index := st2.raft_log.last_index,
                       log_term := st2.raft_log.last_term,
                       context := [] })
        ids st = some s2 ∧
      s2.term = st.term ∧ s2.vote = st.vote ∧
      ∃ new, s2.msgs = st.msgs ++ new ∧
        ∀ msg ∈ new, msg.msg_type = .MsgRequestPreVote ∧ msg.term = tm := by
  induction ids with
  | nil =>
    intro st
    exact ⟨st, rfl, rfl, rfl, [], by simp, by simp⟩
  | cons a as ih =>
    intro st
    by_cases ha : a = st.id
    · obtain ⟨s2, hf, ht2, hv2, new, hm2, hP⟩ := ih st
      refine ⟨s2, ?_, ht2, hv2, new, hm2, hP⟩
      unfold foldSome
      simp only []
      rw [if_pos ha]
      exact hf
    · have hsend := send_vote_eq st
        { new_message a .MsgRequestPreVote none with
          term := tm,
          index := st.raft_log.last_index,
          log_term := st.raft_log.last_term,
          context := [] } (Or.inr rfl) htm
      obtain ⟨s2, hf, ht2, hv2, new, hm2, hP⟩ := ih
        { st with msgs := st.msgs ++
            [{ new_message a .MsgRequestPreVote none with
               from_ := st.id,
               term := tm,
               index := st.raft_log.last_index,
               log_term := st.raft_log.last_term,
               context := [] }] }
      refine ⟨s2, ?_, ht2, hv2,
        { new_message a .MsgRequestPreVote none with
          from_ := st.id,
          term := tm,
          index := st.raft_log.last_index,
          log_term := st.raft_log.last_term,
          context := [] } :: new, ?_, ?_⟩
      · unfold foldSome
        simp only []
        rw [if_neg ha, hsend]
        exact hf
      · rw [hm2]
        simp
      · intro msg hm
        rcases List.mem_cons.mp hm with hm | hm
        · rw [hm]
          exact ⟨rfl, rfl⟩
        · exact hP msg hm

end Raft

namespace Raft

/-- C8 (amended): as long as the pre-candidate does not already win with
its own vote, a PreElection campaign keeps term and vote and only sends
RequestPreVote messages carrying term + 1. -/
theorem c8_pre_campaign (s : Raft) (hs : ¬ s.state = .Leader)
    (hnd : ¬ s.prs.candidacy_status [(s.id, true)] = .Elected) :
    ∃ s2, campaign s CAMPAIGN_PRE_ELECTION = some s2 ∧
      s2.term = s.term ∧ s2.vote = s.vote ∧
      ∃ new, s2.msgs = s.msgs ++ new ∧
        ∀ msg ∈ new, msg.msg_type = .MsgRequestPreVote ∧ msg.term = s.term + 1 := by
  have hred : campaign s CAMPAIGN_PRE_ELECTION =
      foldSome
        (fun st2 id =>
          if id = st2.id then some st2
          else
            send st2 { new_message id .MsgRequestPreVote none with
                       term := s.term + 1,
                       index := st2.raft_log.last_index,
                       log_term := st2.raft_log.last_term,
                       context := [] })
        s.prs.voter_ids
        { s with state := .PreCandidate, votes := [(s.id, true)], leader_id := 0 } := by
    unfold campaign campaignGo
    rw [if_pos rfl]
    unfold become_pre_candidate
    rw [if_neg hs]
    simp only [Option.map_some']
    unfold register_vote
    simp only [List.lookup, Option.isSome, List.nil_append, Bool.false_eq_true, if_false]
    rw [if_neg hnd]
    rw [if_neg (by decide : ¬ CAMPAIGN_PRE_ELECTION = CAMPAIGN_TRANSFER)]
  obtain ⟨s2, hf, ht2, hv2, new, hm2, hP⟩ :=
    campaign_prevote_fold (s.term + 1) (by omega) s.prs.voter_ids
      { s with state := .PreCandidate, votes := [(s.id, true)], leader_id := 0 }
  exact ⟨s2, by rw [hred]; exact hf, ht2, hv2, new, hm2, hP⟩

end Raft

namespace Raft

/-- C8 counterexample: in a single-voter cluster the pre-election
campaign immediately cascades into a real election, so the term is not
preserved (it moves from 0 to 1). -/
theorem c8_counterexample :
    (testNode 1 [1]).term = 0 ∧
    (campaign (testNode 1 [1]) CAMPAIGN_PRE_ELECTION).map (fun s2 => s2.term) =
      some 1 := by
  constructor
  · rfl
  · decide

def c8_state : Raft := { testNode 1 [1, 2] with term := 5, vote := 2 }

/-- Witness for C8 (amended): a two-voter pre-campaign keeps term 5 and
vote 2 while soliciting RequestPreVote at term 6. -/
theorem c8_pre_campaign_witness :
    ∃ s2, campaign c8_state CAMPAIGN_PRE_ELECTION = some s2 ∧
      s2.term = c8_state.term ∧ s2.vote = c8_state.vote ∧
      ∃ new, s2.msgs = c8_state.msgs ++ new ∧
        ∀ msg ∈ new, msg.msg_type = .MsgRequestPreVote ∧
          msg.term = c8_state.term + 1 :=
  c8_pre_campaign c8_state (by decide) (by decide)

end Raft

namespace Raft

/-- C9: a vote response from a voter whose vote is already recorded
changes nothing while the tally is still undecided: register_vote keeps
the first recorded verdict and the candidate state is returned as is. -/
theorem c9_first_vote_wins (s : Raft) (m : Message)
    (hty : m.msg_type = .MsgRequestVoteResponse ∨
      m.msg_type = .MsgRequestPreVoteResponse)
    (hrec : (s.votes.lookup m.from_).isSome = true)
    (hel : s.prs.candidacy_status s.votes = .Eligible) :
    step_candidate s m = some (s, none) := by
  have hred : step_candidate s m = step_candidate_vote_resp s m := by
    unfold step_candidate
    rcases hty with h | h <;> rw [h]
  have hrv : ∀ b, register_vote s m.from_ b = s := by
    intro b
    unfold register_vote
    rw [if_pos hrec]
  rw [hred]
  unfold step_candidate_vote_resp
  split
  · rfl
  · simp only []
    rw [hrv, hel]

def c9_state : Raft :=
  { testNode 1 [1, 2, 3] with
    state := .Candidate, term := 1, vote := 1, votes := [(2, true)] }

def c9_msg : Message :=
  { Message.default with
    msg_type := .MsgRequestVoteResponse, from_ := 2, term := 1, reject := true }

/-- Witness for C9: a duplicate response from voter 2 with the opposite
verdict leaves the candidate state untouched. -/
theorem c9_first_vote_wins_witness :
    step_candidate c9_state c9_msg = some (c9_state, none) :=
  c9_first_vote_wins c9_state c9_msg (Or.inl rfl) (by decide) (by decide)

end Raft

end RaftRs
